import Mathlib

/-!
Verification development for the `q` command-line tool (Rust).

Strings are modelled as `List Char`. Machine/OS interactions (terminal
prompts, environment variables, subprocess spawning, HTTP) are modelled by
explicit oracles (`World`, `Env`, `HttpOutcome`) that every theorem
quantifies over. The JSON lexer of serde_json is abstracted: a reply body
is given either as a parse tree (`Json`) or as `none` for text that is not
valid JSON; the schema-directed decoding of `CommandSuggestion` is modelled
faithfully. The functions mirror, item by item, the code in
`src/main.rs`, `src/models.rs`, `src/executor.rs`, `src/config.rs` and
`src/ai/openrouter.rs`.
-/

set_option autoImplicit false

/-- Convert a Lean string literal to the `List Char` string model. -/
def str (s : String) : List Char := s.toList

/-- The left brace character (written via its code to keep sources plain). -/
def lbrace : Char := '\x7b'

/-- The right brace character. -/
def rbrace : Char := '\x7d'

/-- Characters matched by the regex class `[A-Z0-9_]` in
`Executor::resolve_variables` (executor.rs line 107). -/
def isVarChar (c : Char) : Bool :=
  (('A' ≤ c && c ≤ 'Z') || ('0' ≤ c && c ≤ '9') || c == '_')

/-- The text of a `VAR` placeholder: two left braces, the name, two right
braces.  This is both the shape the regex recognises and the pattern string
`format!` builds at executor.rs line 131. -/
def placeholder (v : List Char) : List Char :=
  lbrace :: lbrace :: (v ++ [rbrace, rbrace])

/-- One attempt of the regex `\x7b\x7b([A-Z0-9_]+)\x7d\x7d` anchored at the
start of `s`: two left braces, a maximal nonempty run of `[A-Z0-9_]`
characters, two right braces.  (Because the character class excludes the
closing brace, the regex engine's greedy match at a position succeeds
exactly when this maximal-run match succeeds.)  Returns the captured name
and the rest of the input after the match. -/
def matchPlaceholder (s : List Char) : Option (List Char × List Char) :=
  match s with
  | c1 :: c2 :: rest =>
    if c1 = lbrace ∧ c2 = lbrace then
      let name := rest.takeWhile isVarChar
      match rest.dropWhile isVarChar with
      | d1 :: d2 :: r3 =>
        if name ≠ [] ∧ d1 = rbrace ∧ d2 = rbrace then some (name, r3) else none
      | _ => none
    else none
  | _ => none

/-- Tokens of a command string: literal characters and `VAR` placeholders. -/
inductive Tok where
  | lit : Char → Tok
  | var : List Char → Tok
deriving DecidableEq

/-- Fuelled scanner for `captures_iter`: at each position try to match a
placeholder; on success continue after it, otherwise emit the head
character as a literal and continue.  Fuel `s.length` always suffices. -/
def parseToksF : Nat → List Char → List Tok
  | 0, _ => []
  | fuel + 1, s =>
    match matchPlaceholder s with
    | some (n, r) => Tok.var n :: parseToksF fuel r
    | none =>
      match s with
      | [] => []
      | c :: cs => Tok.lit c :: parseToksF fuel cs

/-- The token decomposition of a command string; models the regex scan of
`captures_iter` at executor.rs line 113. -/
def parseToks (s : List Char) : List Tok := parseToksF s.length s

/-- The placeholder names found by `captures_iter`, in order, with
multiplicity. -/
def parseNames (s : List Char) : List (List Char) :=
  (parseToks s).filterMap (fun t => match t with | Tok.var n => some n | Tok.lit _ => none)

/-- Rebuild the text of a token list. -/
def flattenToks : List Tok → List Char
  | [] => []
  | Tok.lit c :: ts => c :: flattenToks ts
  | Tok.var v :: ts => placeholder v ++ flattenToks ts

/-- Whether some position of `s` starts a placeholder match. -/
def existsPlaceholder : List Char → Bool
  | [] => false
  | c :: cs => (matchPlaceholder (c :: cs)).isSome || existsPlaceholder cs

/-- Fuelled model of Rust `str::replace`: replace the non-overlapping
occurrences of `pat`, scanning left to right.  Fuel `s.length` suffices. -/
def replaceAllF : Nat → List Char → List Char → List Char → List Char
  | 0, s, _, _ => s
  | fuel + 1, s, pat, repl =>
    match s with
    | [] => []
    | c :: cs =>
      if pat ≠ [] ∧ pat.isPrefixOf (c :: cs) then
        repl ++ replaceAllF fuel ((c :: cs).drop pat.length) pat repl
      else
        c :: replaceAllF fuel cs pat repl

/-- Model of Rust `str::replace` (used at executor.rs line 131). -/
def replaceAll (s pat repl : List Char) : List Char := replaceAllF s.length s pat repl

/-- The deduplication loop of executor.rs lines 112-118: keep each name the
first time it appears, preserving order. -/
def collectVars (names : List (List Char)) : List (List Char) :=
  names.foldl (fun acc v => if v ∈ acc then acc else acc ++ [v]) []

/-- Specification-side first-occurrence deduplication: keep the head,
then deduplicate the tail with the head filtered out. -/
def keepFirstF : Nat → List (List Char) → List (List Char)
  | 0, _ => []
  | fuel + 1, l =>
    match l with
    | [] => []
    | v :: vs => v :: keepFirstF fuel (vs.filter (fun u => decide (u ≠ v)))

/-- First-occurrence deduplication (wrapper with sufficient fuel). -/
def keepFirst (l : List (List Char)) : List (List Char) := keepFirstF l.length l

/-- The AI command suggestion record (models.rs lines 4-12). -/
structure CommandSuggestion where
  command : List Char
  explanation : List Char
  warning : Option (List Char)
deriving DecidableEq

/-- Output of a finished subprocess: captured stdout, captured stderr, and
the exit code (`none` models termination without a code, e.g. by signal;
`status.success()` on Unix holds exactly when the code is 0). -/
structure ProcOutput where
  stdout : List Char
  stderr : List Char
  exitCode : Option Int
deriving DecidableEq

/-- Oracle for the interactive and process environment of the executor:
the answer the user gives to the confirmation prompt, the value the user
types for each requested variable, and the outcome of spawning a subshell
on a command (`none` models failure to launch the process at all). -/
structure World where
  confirmAnswer : Bool
  inputVal : List Char → List Char
  spawn : List Char → Option ProcOutput

/-- Observable interactions of a run, in order. -/
inductive Event where
  | print : List Char → Event
  | eprint : List Char → Event
  | confirmAsk : List Char → Bool → Event
  | inputAsk : List Char → Event
  | spawn : List Char → Event
deriving DecidableEq

/-- The executor state (executor.rs lines 8-19). -/
structure Executor where
  auto_confirm : Bool
  show_explanation : Bool

/-- The prompting/replacement loop of executor.rs lines 125-132: for each
variable in order, ask the user for a value and replace every occurrence
of its placeholder in the accumulated command. -/
def substRounds (w : World) : List (List Char) → List Char → List Event × List Char
  | [], acc => ([], acc)
  | v :: vs, acc =>
    let value := w.inputVal v
    let r := substRounds w vs (replaceAll acc (placeholder v) value)
    (Event.inputAsk v :: r.1, r.2)

/-- `Executor::resolve_variables` (executor.rs lines 106-140): collect the
distinct placeholder names in order of first occurrence, prompt for each,
replace sequentially; banner and final-command messages are printed only
when at least one variable was found. -/
def resolveVariables (w : World) (command : List Char) : List Event × List Char :=
  let vars := collectVars (parseNames command)
  let r := substRounds w vars command
  if vars.isEmpty then (r.1, r.2)
  else ([Event.print (str "📝 Input required:")] ++ r.1
          ++ [Event.print (str "Final command:"), Event.print r.2], r.2)

/-- `Executor::execute_command` (executor.rs lines 62-103): run the command
in a subshell, relay nonempty stdout and stderr, succeed exactly when the
exit status is success, and otherwise fail carrying the exit code
(`-1` when no code is available). -/
def executeCommand (w : World) (command : List Char) : List Event × Except (List Char) Unit :=
  match w.spawn command with
  | none =>
    ([Event.print (str "Executing..."), Event.spawn command],
     Except.error (str "Failed to execute command"))
  | some out =>
    let e1 := if out.stdout = [] then [] else [Event.print out.stdout]
    let e2 := if out.stderr = [] then [] else [Event.eprint out.stderr]
    if out.exitCode = some 0 then
      ([Event.print (str "Executing..."), Event.spawn command] ++ e1 ++ e2
        ++ [Event.print (str "✓ Command completed successfully")], Except.ok ())
    else
      ([Event.print (str "Executing..."), Event.spawn command] ++ e1 ++ e2,
       Except.error (str "Command failed with exit code: "
         ++ (toString (out.exitCode.getD (-1))).toList))

/-- `Executor::handle_suggestion` (executor.rs lines 22-59). -/
def Executor.handleSuggestion (ex : Executor) (w : World) (s : CommandSuggestion) :
    List Event × Except (List Char) Unit :=
  let e0 := [Event.print (str "💡 Suggested command:"), Event.print s.command]
  let e1 := if ex.show_explanation
    then [Event.print (str "Explanation:"), Event.print s.explanation] else []
  let e2 := match s.warning with
    | some wmsg => [Event.print (str "⚠️  WARNING:"), Event.print wmsg]
    | none => []
  if ex.auto_confirm then
    let r := resolveVariables w s.command
    let e := executeCommand w r.2
    (e0 ++ e1 ++ e2 ++ r.1 ++ e.1, e.2)
  else
    let e3 := [Event.confirmAsk (str "Run this command?") false]
    if w.confirmAnswer then
      let r := resolveVariables w s.command
      let e := executeCommand w r.2
      (e0 ++ e1 ++ e2 ++ e3 ++ r.1 ++ e.1, e.2)
    else
      (e0 ++ e1 ++ e2 ++ e3 ++ [Event.print (str "Command not executed.")], Except.ok ())

/-- Oracle for the process environment read by `SystemContext::gather` and
`detect_shell` (models.rs): the value of `std::env::consts::OS`, the
`SHELL` variable, whether the build targets Windows, whether `PSModulePath`
is set, and the current directory (`none` models an unreadable one). -/
structure Env where
  osName : List Char
  shellVar : Option (List Char)
  windows : Bool
  psModulePath : Bool
  currentDir : Option (List Char)

/-- Rust `str::split('/')`: the pieces between slashes, at least one. -/
def splitSlash : List Char → List (List Char)
  | [] => [[]]
  | c :: cs =>
    if c = '/' then [] :: splitSlash cs
    else
      match splitSlash cs with
      | [] => [[c]]
      | p :: ps => (c :: p) :: ps

/-- `detect_shell` (models.rs lines 44-64): the last `/`-separated
component of `SHELL` when set, otherwise the platform default. -/
def detectShell (env : Env) : List Char :=
  match env.shellVar with
  | some s => (splitSlash s).getLastD (str "unknown")
  | none =>
    if env.windows then (if env.psModulePath then str "powershell" else str "cmd")
    else str "bash"

/-- System context sent with the query (models.rs lines 15-23). -/
structure SystemContext where
  os : List Char
  shell : List Char
  current_dir : List Char
deriving DecidableEq

/-- `SystemContext::gather` (models.rs lines 30-41): read the OS constant,
the configured shell override (else auto-detect), and the working
directory; fail exactly when the latter cannot be read. -/
def SystemContext.gather (shellOverride : Option (List Char)) (env : Env) :
    Except (List Char) SystemContext :=
  match env.currentDir with
  | none => Except.error (str "Failed to gather system context")
  | some d => Except.ok ⟨env.osName, shellOverride.getD (detectShell env), d⟩

/-- JSON parse trees (serde_json values; the numeric type is simplified to
integers, which no claim depends on). -/
inductive Json where
  | null : Json
  | bool : Bool → Json
  | num : Int → Json
  | str : List Char → Json
  | arr : List Json → Json
  | obj : List (List Char × Json) → Json

/-- The error produced when the reply text is not in the expected format
(openrouter.rs line 129). -/
def schemaErr : List Char :=
  str "Failed to parse AI response as JSON. Response was not in expected format."

/-- The values bound to key `k` in a JSON object, in order. -/
def fieldVals (kvs : List (List Char × Json)) (k : List Char) : List Json :=
  (kvs.filter (fun p => decide (p.1 = k))).map (fun p => p.2)

/-- serde decoding of `CommandSuggestion` from a JSON value: the value
must be an object binding `command` and `explanation` exactly once each to
strings, and `warning` at most once to a string or `null`; unknown fields
are ignored, duplicates and type mismatches are errors. -/
def suggestionFromJson : Json → Except (List Char) CommandSuggestion
  | Json.obj kvs =>
    match fieldVals kvs (str "command"), fieldVals kvs (str "explanation"),
          fieldVals kvs (str "warning") with
    | [Json.str c], [Json.str e], [] => Except.ok ⟨c, e, none⟩
    | [Json.str c], [Json.str e], [Json.null] => Except.ok ⟨c, e, none⟩
    | [Json.str c], [Json.str e], [Json.str wmsg] => Except.ok ⟨c, e, some wmsg⟩
    | _, _, _ => Except.error schemaErr
  | _ => Except.error schemaErr

/-- Extracting the suggestion from the decoded chat response
(openrouter.rs lines 119-131): take the first choice (error when there is
none), then parse its message content against the suggestion schema.  A
choice is modelled by its content, given as a JSON parse tree or as `none`
for content that is not valid JSON text. -/
def parseChoices (choices : List (Option Json)) : Except (List Char) CommandSuggestion :=
  match choices with
  | [] => Except.error (str "No response from AI")
  | choice :: _ =>
    match choice with
    | none => Except.error schemaErr
    | some j => suggestionFromJson j

/-- Oracle for one HTTP exchange with the provider: transport failure,
non-success status, body that does not decode as a chat response, or a
decoded list of choices. -/
inductive HttpOutcome where
  | netFail : HttpOutcome
  | httpError : Int → List Char → HttpOutcome
  | badBody : HttpOutcome
  | ok : List (Option Json) → HttpOutcome

/-- Template text before the OS name (openrouter.rs lines 43-45). -/
def promptSeg1 : List Char :=
  str "You are a command-line assistant that helps users by generating shell commands.\n\nSystem Information:\n- OS: "

/-- Template text between the OS name and the shell name. -/
def promptSeg2 : List Char := str "\n- Shell: "

/-- Template text between the shell name and the current directory. -/
def promptSeg3 : List Char := str "\n- Current Directory: "

/-- Template text between the current directory and the second mention of
the shell (openrouter.rs lines 50-64). -/
def promptSeg4 : List Char :=
  str "\n\nYour task is to:\n1. Understand the user\x27s intent from their natural language query\n2. Generate the appropriate shell command for their system\n3. Provide a clear explanation of what the command does\n4. Warn about potentially destructive operations\n\nRespond ONLY with a JSON object in this exact format:\n\x7b\n  \"command\": \"the actual command to run\",\n  \"explanation\": \"clear explanation of what this command does\",\n  \"warning\": \"optional warning about destructive operations, or null if safe\"\n\x7d\n\nImportant:\n- Generate commands appropriate for the "

/-- Template text between the second shell mention and the second OS
mention. -/
def promptSeg5 : List Char := str " shell on "

/-- Template text after the second OS mention (openrouter.rs lines 65-69). -/
def promptSeg6 : List Char :=
  str "\n- Be concise but clear in explanations\n- Always include warnings for commands that delete, modify, or move files\n- If the request is ambiguous, make reasonable assumptions but mention them in the explanation\n- If you need the user to provide specific values (like IDs, names, paths), use the syntax \x7b\x7bVARIABLE_NAME\x7d\x7d (e.g., \x7b\x7bVPC_ID\x7d\x7d, \x7b\x7bFILE_PATH\x7d\x7d). Do NOT use generic placeholders like <vpc-id> or [name].\n- Return ONLY the JSON object, no other text"

/-- `OpenRouterProvider::build_system_prompt` (openrouter.rs lines 41-72):
the fixed template with the context interpolated at its five holes. -/
def buildSystemPrompt (ctx : SystemContext) : List Char :=
  promptSeg1 ++ ctx.os ++ promptSeg2 ++ ctx.shell ++ promptSeg3 ++ ctx.current_dir
    ++ promptSeg4 ++ ctx.shell ++ promptSeg5 ++ ctx.os ++ promptSeg6

/-- The chat messages sent in the request body (openrouter.rs lines
84-96): the system prompt then the user query, as (role, content) pairs. -/
def buildRequest (ctx : SystemContext) (query : List Char) :
    List (List Char × List Char) :=
  [(str "system", buildSystemPrompt ctx), (str "user", query)]

/-- `OpenRouterProvider::generate_command` (openrouter.rs lines 77-132):
compose the request, then produce the suggestion or the error determined
by the HTTP outcome.  Returns the request messages together with the
result. -/
def generateCommand (ctx : SystemContext) (query : List Char) (o : HttpOutcome) :
    List (List Char × List Char) × Except (List Char) CommandSuggestion :=
  (buildRequest ctx query,
    match o with
    | HttpOutcome.netFail => Except.error (str "Failed to send request to OpenRouter")
    | HttpOutcome.httpError _ _ => Except.error (str "OpenRouter API error")
    | HttpOutcome.badBody => Except.error (str "Failed to parse OpenRouter response")
    | HttpOutcome.ok choices => parseChoices choices)

/-- The pipeline steps named by the specification. -/
inductive Step where
  | gatherCtx : Step
  | buildPrompt : Step
  | httpCall : Step
  | parseReply : Step
  | confirm : Step
  | subst : Step
  | exec : Step
  | report : Step
deriving DecidableEq

/-- The full pipeline order stated by the specification. -/
def stepOrder : List Step :=
  [Step.gatherCtx, Step.buildPrompt, Step.httpCall, Step.parseReply,
   Step.confirm, Step.subst, Step.exec, Step.report]

/-- The pipeline order with the confirmation step skipped. -/
def stepOrderAuto : List Step :=
  [Step.gatherCtx, Step.buildPrompt, Step.httpCall, Step.parseReply,
   Step.subst, Step.exec, Step.report]

/-- `let auto_confirm = cli.yes || config.execution.auto_confirm`
(main.rs line 136). -/
def effectiveAutoConfirm (yesFlag cfgAutoConfirm : Bool) : Bool :=
  yesFlag || cfgAutoConfirm

/-- Oracles and configuration of one whole run of `main`. -/
structure RunEnv where
  env : Env
  shellOverride : Option (List Char)
  httpOutcome : HttpOutcome
  world : World
  yesFlag : Bool
  cfgAutoConfirm : Bool
  showExplanation : Bool

/-- The execution tail of the pipeline once the user has confirmed (or
auto-confirm is on): substitute variables, spawn the subshell, and report
the exit status of an obtained subprocess output.  The result is exactly
the one of `executeCommand` on the resolved command. -/
def execPhase (w : World) (cmd : List Char) : List Step × Except (List Char) Unit :=
  let fc := (resolveVariables w cmd).2
  let res := (executeCommand w fc).2
  match w.spawn fc with
  | none => ([Step.subst, Step.exec], res)
  | some _ => ([Step.subst, Step.exec, Step.report], res)

/-- Step-level model of `main` (main.rs lines 108-143) for a run with a
nonempty query and a valid configuration: gather the context, build the
prompt and call the provider, parse the reply, then hand the suggestion to
the executor; each stage stops the run when it fails. -/
def mainSteps (R : RunEnv) (query : List Char) : List Step × Except (List Char) Unit :=
  match SystemContext.gather R.shellOverride R.env with
  | Except.error e => ([Step.gatherCtx], Except.error e)
  | Except.ok ctx =>
    match (generateCommand ctx query R.httpOutcome).2 with
    | Except.error e =>
      match R.httpOutcome with
      | HttpOutcome.netFail => ([Step.gatherCtx, Step.buildPrompt, Step.httpCall], Except.error e)
      | HttpOutcome.httpError _ _ => ([Step.gatherCtx, Step.buildPrompt, Step.httpCall], Except.error e)
      | HttpOutcome.badBody =>
        ([Step.gatherCtx, Step.buildPrompt, Step.httpCall, Step.parseReply], Except.error e)
      | HttpOutcome.ok _ =>
        ([Step.gatherCtx, Step.buildPrompt, Step.httpCall, Step.parseReply], Except.error e)
    | Except.ok sugg =>
      let pre := [Step.gatherCtx, Step.buildPrompt, Step.httpCall, Step.parseReply]
      if effectiveAutoConfirm R.yesFlag R.cfgAutoConfirm then
        let ep := execPhase R.world sugg.command
        (pre ++ ep.1, ep.2)
      else if R.world.confirmAnswer then
        let ep := execPhase R.world sugg.command
        (pre ++ [Step.confirm] ++ ep.1, ep.2)
      else
        (pre ++ [Step.confirm], Except.ok ())

/-- `p` occurs as a contiguous substring of `s`. -/
def Substr (p s : List Char) : Prop := ∃ l r, s = l ++ p ++ r

/-- Specification-side simultaneous substitution: every placeholder
occurrence of the original command, as found by the scan, replaced by the
value for its name; literal text kept as is.  This renders the
specification sentence "the command with every occurrence of each VAR
placeholder replaced by the value the user entered for VAR". -/
def renderToks (vals : List Char → List Char) : List Tok → List Char
  | [] => []
  | Tok.lit c :: ts => c :: renderToks vals ts
  | Tok.var v :: ts => vals v ++ renderToks vals ts

/-- See `renderToks`. -/
def substSpec (vals : List Char → List Char) (cmd : List Char) : List Char :=
  renderToks vals (parseToks cmd)

/-- Replace, in a token list, the tokens of one variable by the literal
characters of one replacement value. -/
def substOne (v repl : List Char) : List Tok → List Tok
  | [] => []
  | Tok.lit c :: ts => Tok.lit c :: substOne v repl ts
  | Tok.var u :: ts =>
    (if u = v then repl.map Tok.lit else [Tok.var u]) ++ substOne v repl ts

/-- A token is brace-clean when, if it is a literal, its character is not
a brace. -/
def litOkTokB : Tok → Bool
  | Tok.lit c => !(c == lbrace || c == rbrace)
  | Tok.var _ => true

/-- A string with no brace characters. -/
def braceFreeB (l : List Char) : Bool := l.all (fun c => !(c == lbrace || c == rbrace))

/-- The variable names the executor prompted for, in order. -/
def promptedVars (w : World) (cmd : List Char) : List (List Char) :=
  (resolveVariables w cmd).1.filterMap
    (fun e => match e with | Event.inputAsk v => some v | _ => none)

lemma matchPlaceholder_nil : matchPlaceholder [] = none := rfl

lemma takeWhile_all_append {p : Char → Bool} :
    ∀ (xs : List Char) (y : Char) (ys : List Char),
      (∀ c ∈ xs, p c = true) → p y = false →
      (xs ++ y :: ys).takeWhile p = xs ∧ (xs ++ y :: ys).dropWhile p = y :: ys := by
  intro xs
  induction xs with
  | nil =>
    intro y ys _ hy
    simp [List.takeWhile_cons, List.dropWhile_cons, hy]
  | cons x xs ih =>
    intro y ys hall hy
    have hx : p x = true := hall x (by simp)
    have ih2 := ih y ys (fun c hc => hall c (by simp [hc])) hy
    simp [List.takeWhile_cons, List.dropWhile_cons, hx, ih2.1, ih2.2]

lemma matchPlaceholder_eq_some {s n r : List Char}
    (h : matchPlaceholder s = some (n, r)) :
    s = placeholder n ++ r ∧ n ≠ [] ∧ ∀ c ∈ n, isVarChar c = true := by
  cases s with
  | nil => exact absurd h (by simp [matchPlaceholder])
  | cons c1 s1 =>
    cases s1 with
    | nil => exact absurd h (by simp [matchPlaceholder])
    | cons c2 rest =>
      simp only [matchPlaceholder] at h
      by_cases hbr : c1 = lbrace ∧ c2 = lbrace
      · rw [if_pos hbr] at h
        have hsplit := List.takeWhile_append_dropWhile (p := isVarChar) (l := rest)
        cases hdw : rest.dropWhile isVarChar with
        | nil => rw [hdw] at h; exact absurd h (by simp)
        | cons d1 t1 =>
          cases t1 with
          | nil => rw [hdw] at h; exact absurd h (by simp)
          | cons d2 r3 =>
            rw [hdw] at h
            have h2 : (if rest.takeWhile isVarChar ≠ [] ∧ d1 = rbrace ∧ d2 = rbrace
                then some (rest.takeWhile isVarChar, r3) else none) = some (n, r) := h
            by_cases hcond : rest.takeWhile isVarChar ≠ [] ∧ d1 = rbrace ∧ d2 = rbrace
            · rw [if_pos hcond] at h2
              obtain ⟨hn, hr⟩ : rest.takeWhile isVarChar = n ∧ r3 = r := by
                simpa using h2
              refine ⟨?_, ?_, ?_⟩
              · rw [hdw, hcond.2.1, hcond.2.2, hn, hr] at hsplit
                rw [placeholder, hbr.1, hbr.2]
                rw [← hsplit]
                simp
              · rw [← hn]; exact hcond.1
              · intro c hc
                rw [← hn] at hc
                exact List.mem_takeWhile_imp hc
            · rw [if_neg hcond] at h2; exact absurd h2 (by simp)
      · rw [if_neg hbr] at h; exact absurd h (by simp)

lemma length_placeholder (n : List Char) : (placeholder n).length = n.length + 4 := by
  simp [placeholder]

lemma matchPlaceholder_length {s n r : List Char}
    (h : matchPlaceholder s = some (n, r)) : r.length < s.length := by
  obtain ⟨hs, hn, -⟩ := matchPlaceholder_eq_some h
  have : s.length = n.length + 4 + r.length := by
    rw [hs]; simp [length_placeholder]
  omega

lemma isVarChar_rbrace : isVarChar rbrace = false := by decide

lemma matchPlaceholder_placeholder {n : List Char} (r : List Char)
    (hn : n ≠ []) (hv : ∀ c ∈ n, isVarChar c = true) :
    matchPlaceholder (placeholder n ++ r) = some (n, r) := by
  have hsh : placeholder n ++ r = lbrace :: lbrace :: (n ++ rbrace :: rbrace :: r) := by
    simp [placeholder]
  have htw := takeWhile_all_append (p := isVarChar) n rbrace (rbrace :: r) hv isVarChar_rbrace
  rw [hsh]
  simp [matchPlaceholder, htw.1, htw.2, hn]

lemma parseToksF_nil : ∀ f, parseToksF f [] = [] := by
  intro f; cases f <;> rfl

lemma parseToksF_congr : ∀ (f1 : Nat), ∀ {f2 : Nat} {s : List Char},
    s.length ≤ f1 → s.length ≤ f2 → parseToksF f1 s = parseToksF f2 s := by
  intro f1
  induction f1 with
  | zero =>
    intro f2 s h1 _
    have : s = [] := List.length_eq_zero.mp (Nat.le_zero.mp h1)
    subst this
    rw [parseToksF_nil, parseToksF_nil]
  | succ f1 ih =>
    intro f2 s h1 h2
    cases s with
    | nil => rw [parseToksF_nil, parseToksF_nil]
    | cons c cs =>
      cases f2 with
      | zero => simp at h2
      | succ f2 =>
        simp only [parseToksF]
        cases h : matchPlaceholder (c :: cs) with
        | none =>
          have hc : cs.length ≤ f1 := by simp at h1; omega
          have hc2 : cs.length ≤ f2 := by simp at h2; omega
          rw [ih hc hc2]
        | some nr =>
          obtain ⟨n, r⟩ := nr
          have hlt := matchPlaceholder_length h
          have hr1 : r.length ≤ f1 := by simp at h1 hlt; omega
          have hr2 : r.length ≤ f2 := by simp at h2 hlt; omega
          show Tok.var n :: parseToksF f1 r = Tok.var n :: parseToksF f2 r
          rw [ih hr1 hr2]

lemma parseToks_nil : parseToks [] = [] := rfl

lemma parseToks_eq_var {s n r : List Char} (h : matchPlaceholder s = some (n, r)) :
    parseToks s = Tok.var n :: parseToks r := by
  have hlt := matchPlaceholder_length h
  have hpos : 1 ≤ s.length := by omega
  have hs : s.length = (s.length - 1) + 1 := by omega
  rw [parseToks, hs]
  simp only [parseToksF, h]
  rw [parseToks]
  congr 1
  exact parseToksF_congr _ (by omega) le_rfl

lemma parseToks_eq_lit {c : Char} {cs : List Char}
    (h : matchPlaceholder (c :: cs) = none) :
    parseToks (c :: cs) = Tok.lit c :: parseToks cs := by
  rw [parseToks]
  simp only [List.length_cons, parseToksF, h]
  rfl

theorem parseToks_ind (P : List Char → Prop) (h0 : P [])
    (hvar : ∀ s n r, matchPlaceholder s = some (n, r) → P r → P s)
    (hlit : ∀ c cs, matchPlaceholder (c :: cs) = none → P cs → P (c :: cs)) :
    ∀ s, P s := by
  have main : ∀ m s, s.length ≤ m → P s := by
    intro m
    induction m with
    | zero =>
      intro s hs
      have : s = [] := List.length_eq_zero.mp (Nat.le_zero.mp hs)
      rw [this]; exact h0
    | succ m ih =>
      intro s hs
      cases s with
      | nil => exact h0
      | cons c cs =>
        cases h : matchPlaceholder (c :: cs) with
        | none =>
          exact hlit c cs h (ih cs (by simp at hs; omega))
        | some nr =>
          obtain ⟨n, r⟩ := nr
          have hlt := matchPlaceholder_length h
          exact hvar _ n r h (ih r (by simp at hs hlt ⊢; omega))
  exact fun s => main s.length s le_rfl

lemma replaceAllF_nil : ∀ f pat repl, replaceAllF f [] pat repl = [] := by
  intro f pat repl; cases f <;> rfl

lemma replaceAllF_congr : ∀ (f1 : Nat), ∀ {f2 : Nat} {s pat repl : List Char},
    s.length ≤ f1 → s.length ≤ f2 → replaceAllF f1 s pat repl = replaceAllF f2 s pat repl := by
  intro f1
  induction f1 with
  | zero =>
    intro f2 s pat repl h1 _
    have : s = [] := List.length_eq_zero.mp (Nat.le_zero.mp h1)
    subst this
    rw [replaceAllF_nil, replaceAllF_nil]
  | succ f1 ih =>
    intro f2 s pat repl h1 h2
    cases s with
    | nil => rw [replaceAllF_nil, replaceAllF_nil]
    | cons c cs =>
      cases f2 with
      | zero => simp at h2
      | succ f2 =>
        simp only [replaceAllF]
        by_cases hc : pat ≠ [] ∧ pat.isPrefixOf (c :: cs)
        · rw [if_pos hc, if_pos hc]
          have hpat : 1 ≤ pat.length := by
            cases hp : pat with
            | nil => exact absurd hp hc.1
            | cons a l => simp
          have hd : ((c :: cs).drop pat.length).length ≤ f1 := by
            simp at h1 ⊢; omega
          have hd2 : ((c :: cs).drop pat.length).length ≤ f2 := by
            simp at h2 ⊢; omega
          rw [ih hd hd2]
        · rw [if_neg hc, if_neg hc]
          have hc1 : cs.length ≤ f1 := by simp at h1; omega
          have hc2 : cs.length ≤ f2 := by simp at h2; omega
          rw [ih hc1 hc2]

lemma replaceAll_nil (pat repl : List Char) : replaceAll [] pat repl = [] := rfl

lemma replaceAll_pos {c : Char} {cs pat : List Char} (repl : List Char)
    (h1 : pat ≠ []) (h2 : pat.isPrefixOf (c :: cs)) :
    replaceAll (c :: cs) pat repl
      = repl ++ replaceAll ((c :: cs).drop pat.length) pat repl := by
  rw [replaceAll]
  simp only [List.length_cons, replaceAllF, if_pos (And.intro h1 h2)]
  rw [replaceAll]
  congr 1
  apply replaceAllF_congr
  · have hpat : 1 ≤ pat.length := by
      cases hp : pat with
      | nil => exact absurd hp h1
      | cons a l => simp
    simp; omega
  · exact le_rfl

lemma replaceAll_neg {c : Char} {cs pat : List Char} (repl : List Char)
    (h : ¬(pat ≠ [] ∧ pat.isPrefixOf (c :: cs))) :
    replaceAll (c :: cs) pat repl = c :: replaceAll cs pat repl := by
  rw [replaceAll]
  simp only [List.length_cons, replaceAllF, if_neg h]
  rfl

lemma keepFirstF_nil : ∀ f, keepFirstF f [] = [] := by
  intro f; cases f <;> rfl

lemma keepFirstF_congr : ∀ (f1 : Nat), ∀ {f2 : Nat} {l : List (List Char)},
    l.length ≤ f1 → l.length ≤ f2 → keepFirstF f1 l = keepFirstF f2 l := by
  intro f1
  induction f1 with
  | zero =>
    intro f2 l h1 _
    have : l = [] := List.length_eq_zero.mp (Nat.le_zero.mp h1)
    subst this
    rw [keepFirstF_nil, keepFirstF_nil]
  | succ f1 ih =>
    intro f2 l h1 h2
    cases l with
    | nil => rw [keepFirstF_nil, keepFirstF_nil]
    | cons v vs =>
      cases f2 with
      | zero => simp at h2
      | succ f2 =>
        simp only [keepFirstF]
        have hf := List.length_filter_le (fun u => decide (u ≠ v)) vs
        have ha : (vs.filter (fun u => decide (u ≠ v))).length ≤ f1 := by
          simp at h1; omega
        have hb : (vs.filter (fun u => decide (u ≠ v))).length ≤ f2 := by
          simp at h2; omega
        rw [ih ha hb]

lemma keepFirst_nil : keepFirst [] = [] := rfl

lemma keepFirst_cons (v : List Char) (vs : List (List Char)) :
    keepFirst (v :: vs) = v :: keepFirst (vs.filter (fun u => decide (u ≠ v))) := by
  rw [keepFirst]
  simp only [List.length_cons, keepFirstF]
  rw [keepFirst]
  congr 1
  exact keepFirstF_congr _ (List.length_filter_le _ _) le_rfl

theorem keepFirst_ind (P : List (List Char) → Prop) (h0 : P [])
    (h1 : ∀ v vs, P (vs.filter (fun u => decide (u ≠ v))) → P (v :: vs)) :
    ∀ l, P l := by
  have main : ∀ m l, l.length ≤ m → P l := by
    intro m
    induction m with
    | zero =>
      intro l hl
      have : l = [] := List.length_eq_zero.mp (Nat.le_zero.mp hl)
      rw [this]; exact h0
    | succ m ih =>
      intro l hl
      cases l with
      | nil => exact h0
      | cons v vs =>
        have hf := List.length_filter_le (fun u => decide (u ≠ v)) vs
        exact h1 v vs (ih _ (by simp at hl; omega))
  exact fun l => main l.length l le_rfl

lemma collect_go (names : List (List Char)) : ∀ acc : List (List Char),
    names.foldl (fun acc v => if v ∈ acc then acc else acc ++ [v]) acc
      = acc ++ keepFirst (names.filter (fun v => decide (v ∉ acc))) := by
  induction names with
  | nil => intro acc; simp [keepFirst_nil]
  | cons v vs ih =>
    intro acc
    rw [List.foldl_cons]
    by_cases hv : v ∈ acc
    · rw [if_pos hv, ih acc]
      have heq : (v :: vs).filter (fun u => decide (u ∉ acc))
          = vs.filter (fun u => decide (u ∉ acc)) := by
        simp [List.filter_cons, hv]
      rw [heq]
    · rw [if_neg hv, ih (acc ++ [v])]
      have h1 : (v :: vs).filter (fun u => decide (u ∉ acc))
          = v :: vs.filter (fun u => decide (u ∉ acc)) := by
        simp [List.filter_cons, hv]
      rw [h1, keepFirst_cons]
      have h2 : vs.filter (fun u => decide (u ∉ acc ++ [v]))
          = (vs.filter (fun u => decide (u ∉ acc))).filter (fun u => decide (u ≠ v)) := by
        rw [List.filter_filter]
        apply List.filter_congr
        intro u _
        simp [List.mem_append, not_or, Bool.and_comm]
      rw [h2]
      simp

lemma collectVars_eq_keepFirst (names : List (List Char)) :
    collectVars names = keepFirst names := by
  rw [collectVars, collect_go]
  simp

lemma keepFirst_mem : ∀ (l : List (List Char)) (v : List Char),
    v ∈ keepFirst l ↔ v ∈ l := by
  intro l
  induction l using keepFirst_ind with
  | h0 => simp [keepFirst_nil]
  | h1 v vs ih =>
    intro x
    rw [keepFirst_cons]
    simp only [List.mem_cons, ih, List.mem_filter]
    by_cases hx : x = v
    · simp [hx]
    · simp [hx]

lemma keepFirst_nodup : ∀ l : List (List Char), (keepFirst l).Nodup := by
  intro l
  induction l using keepFirst_ind with
  | h0 => rw [keepFirst_nil]; exact List.nodup_nil
  | h1 v vs ih =>
    rw [keepFirst_cons]
    refine List.nodup_cons.mpr ⟨?_, ih⟩
    intro hmem
    rw [keepFirst_mem] at hmem
    simp [List.mem_filter] at hmem

lemma flattenToks_parseToks : ∀ s, flattenToks (parseToks s) = s := by
  intro s
  induction s using parseToks_ind with
  | h0 => rw [parseToks_nil]; rfl
  | hvar s n r h ih =>
    obtain ⟨hs, -, -⟩ := matchPlaceholder_eq_some h
    rw [parseToks_eq_var h]
    rw [hs, flattenToks, ih]
  | hlit c cs h ih =>
    rw [parseToks_eq_lit h, flattenToks, ih]

/-- Well-formedness of variable tokens: nonempty names of `[A-Z0-9_]`
characters. -/
def varOkTok : Tok → Prop
  | Tok.lit _ => True
  | Tok.var v => v ≠ [] ∧ ∀ c ∈ v, isVarChar c = true

lemma parseToks_varOk : ∀ s, ∀ t ∈ parseToks s, varOkTok t := by
  intro s
  induction s using parseToks_ind with
  | h0 => rw [parseToks_nil]; intro t ht; exact absurd ht (List.not_mem_nil t)
  | hvar s n r h ih =>
    rw [parseToks_eq_var h]
    intro t ht
    rcases List.mem_cons.mp ht with h1 | h1
    · rw [h1]
      obtain ⟨-, hn, hv⟩ := matchPlaceholder_eq_some h
      exact ⟨hn, hv⟩
    · exact ih t h1
  | hlit c cs h ih =>
    rw [parseToks_eq_lit h]
    intro t ht
    rcases List.mem_cons.mp ht with h1 | h1
    · rw [h1]; trivial
    · exact ih t h1

lemma mem_parseNames {s u : List Char} : u ∈ parseNames s ↔ Tok.var u ∈ parseToks s := by
  rw [parseNames, List.mem_filterMap]
  constructor
  · rintro ⟨t, ht, hf⟩
    cases t with
    | lit c => exact absurd hf (by simp)
    | var n =>
      have hn : n = u := by simpa using hf
      rw [← hn]; exact ht
  · intro h
    exact ⟨Tok.var u, h, rfl⟩

lemma substRounds_fst (w : World) : ∀ (vs : List (List Char)) (acc : List Char),
    (substRounds w vs acc).1 = vs.map Event.inputAsk := by
  intro vs
  induction vs with
  | nil => intro acc; rfl
  | cons v vs ih => intro acc; simp [substRounds, ih]

lemma resolveVariables_empty {w : World} {cmd : List Char}
    (h : collectVars (parseNames cmd) = []) :
    resolveVariables w cmd = ([], cmd) := by
  simp [resolveVariables, h, substRounds]

lemma resolveVariables_nonempty {w : World} {cmd : List Char}
    (h : collectVars (parseNames cmd) ≠ []) :
    resolveVariables w cmd
      = ([Event.print (str "📝 Input required:")]
           ++ (collectVars (parseNames cmd)).map Event.inputAsk
           ++ [Event.print (str "Final command:"),
               Event.print (substRounds w (collectVars (parseNames cmd)) cmd).2],
         (substRounds w (collectVars (parseNames cmd)) cmd).2) := by
  simp only [resolveVariables]
  rw [if_neg (by simpa using h), substRounds_fst]

lemma resolveVariables_snd (w : World) (cmd : List Char) :
    (resolveVariables w cmd).2 = (substRounds w (collectVars (parseNames cmd)) cmd).2 := by
  by_cases h : collectVars (parseNames cmd) = []
  · rw [resolveVariables_empty h, h]; rfl
  · rw [resolveVariables_nonempty h]

lemma not_spawn_mem_resolveVariables (w : World) (cmd c : List Char) :
    Event.spawn c ∉ (resolveVariables w cmd).1 := by
  by_cases h : collectVars (parseNames cmd) = []
  · rw [resolveVariables_empty h]; simp
  · rw [resolveVariables_nonempty h]; simp

lemma not_confirm_mem_resolveVariables (w : World) (cmd p : List Char) (d : Bool) :
    Event.confirmAsk p d ∉ (resolveVariables w cmd).1 := by
  by_cases h : collectVars (parseNames cmd) = []
  · rw [resolveVariables_empty h]; simp
  · rw [resolveVariables_nonempty h]; simp

lemma spawn_mem_executeCommand (w : World) (cmd : List Char) :
    Event.spawn cmd ∈ (executeCommand w cmd).1 := by
  simp only [executeCommand]
  cases h : w.spawn cmd with
  | none => simp
  | some out =>
    by_cases hc : out.exitCode = some 0 <;> simp [hc]

lemma not_confirm_mem_executeCommand (w : World) (cmd p : List Char) (d : Bool) :
    Event.confirmAsk p d ∉ (executeCommand w cmd).1 := by
  simp only [executeCommand]
  cases h : w.spawn cmd with
  | none => simp
  | some out =>
    by_cases h1 : out.stdout = [] <;> by_cases h2 : out.stderr = [] <;>
      by_cases h3 : out.exitCode = some 0 <;> simp [h1, h2, h3]

/-- The events `handle_suggestion` prints before deciding anything:
suggestion banner, optional explanation, optional warning. -/
def headerEvents (se : Bool) (s : CommandSuggestion) : List Event :=
  [Event.print (str "💡 Suggested command:"), Event.print s.command]
    ++ (if se then [Event.print (str "Explanation:"), Event.print s.explanation] else [])
    ++ (match s.warning with
        | some wmsg => [Event.print (str "⚠️  WARNING:"), Event.print wmsg]
        | none => [])

lemma not_confirm_mem_headerEvents (se : Bool) (s : CommandSuggestion)
    (p : List Char) (d : Bool) : Event.confirmAsk p d ∉ headerEvents se s := by
  by_cases hse : se <;> cases hw : s.warning <;> simp [headerEvents, hse, hw]

lemma not_spawn_mem_headerEvents (se : Bool) (s : CommandSuggestion)
    (c : List Char) : Event.spawn c ∉ headerEvents se s := by
  by_cases hse : se <;> cases hw : s.warning <;> simp [headerEvents, hse, hw]

lemma handleSuggestion_auto (se : Bool) (w : World) (s : CommandSuggestion) :
    (Executor.mk true se).handleSuggestion w s
      = (headerEvents se s ++ (resolveVariables w s.command).1
           ++ (executeCommand w (resolveVariables w s.command).2).1,
         (executeCommand w (resolveVariables w s.command).2).2) := by
  simp [Executor.handleSuggestion, headerEvents, List.append_assoc]

lemma handleSuggestion_confirmed (se : Bool) (w : World) (s : CommandSuggestion)
    (h : w.confirmAnswer = true) :
    (Executor.mk false se).handleSuggestion w s
      = (headerEvents se s ++ [Event.confirmAsk (str "Run this command?") false]
           ++ (resolveVariables w s.command).1
           ++ (executeCommand w (resolveVariables w s.command).2).1,
         (executeCommand w (resolveVariables w s.command).2).2) := by
  simp [Executor.handleSuggestion, headerEvents, h, List.append_assoc]

lemma handleSuggestion_declined (se : Bool) (w : World) (s : CommandSuggestion)
    (h : w.confirmAnswer = false) :
    (Executor.mk false se).handleSuggestion w s
      = (headerEvents se s ++ [Event.confirmAsk (str "Run this command?") false,
           Event.print (str "Command not executed.")], Except.ok ()) := by
  simp [Executor.handleSuggestion, headerEvents, h, List.append_assoc]

lemma confirm_mem_handleSuggestion_false (se : Bool) (w : World) (s : CommandSuggestion) :
    Event.confirmAsk (str "Run this command?") false
      ∈ ((Executor.mk false se).handleSuggestion w s).1 := by
  cases hca : w.confirmAnswer
  · rw [handleSuggestion_declined se w s hca]; simp
  · rw [handleSuggestion_confirmed se w s hca]; simp

lemma not_confirm_mem_handleSuggestion_true (se : Bool) (w : World) (s : CommandSuggestion)
    (p : List Char) (d : Bool) :
    Event.confirmAsk p d ∉ ((Executor.mk true se).handleSuggestion w s).1 := by
  rw [handleSuggestion_auto]
  intro hmem
  rcases List.mem_append.mp hmem with h | h
  · rcases List.mem_append.mp h with h2 | h2
    · exact not_confirm_mem_headerEvents se s p d h2
    · exact not_confirm_mem_resolveVariables w s.command p d h2
  · exact not_confirm_mem_executeCommand w _ p d h

lemma spawn_mem_handleSuggestion_true (se : Bool) (w : World) (s : CommandSuggestion) :
    ∃ c, Event.spawn c ∈ ((Executor.mk true se).handleSuggestion w s).1 := by
  rw [handleSuggestion_auto]
  exact ⟨(resolveVariables w s.command).2,
    List.mem_append.mpr (Or.inr (spawn_mem_executeCommand w _))⟩

/-- C1: with auto-confirm disabled, `handle_suggestion` asks the
"Run this command?" question (defaulting to no) and spawns the subshell
exactly when the user answers yes; on decline it spawns nothing, prints
"Command not executed." and returns success.  With auto-confirm enabled
it never asks and always proceeds to the subshell. -/
theorem claim1_confirmation_gate (w : World) (s : CommandSuggestion) (se : Bool) :
    (Event.confirmAsk (str "Run this command?") false
        ∈ ((Executor.mk false se).handleSuggestion w s).1)
    ∧ ((∃ c, Event.spawn c ∈ ((Executor.mk false se).handleSuggestion w s).1)
        ↔ w.confirmAnswer = true)
    ∧ (w.confirmAnswer = false →
        (∀ c, Event.spawn c ∉ ((Executor.mk false se).handleSuggestion w s).1)
        ∧ Event.print (str "Command not executed.")
            ∈ ((Executor.mk false se).handleSuggestion w s).1
        ∧ ((Executor.mk false se).handleSuggestion w s).2 = Except.ok ())
    ∧ (∀ p d, Event.confirmAsk p d ∉ ((Executor.mk true se).handleSuggestion w s).1)
    ∧ (∃ c, Event.spawn c ∈ ((Executor.mk true se).handleSuggestion w s).1) := by
  have hdecl : w.confirmAnswer = false →
      ∀ c, Event.spawn c ∉ ((Executor.mk false se).handleSuggestion w s).1 := by
    intro hca c hc
    rw [handleSuggestion_declined se w s hca] at hc
    rcases List.mem_append.mp hc with h | h
    · exact not_spawn_mem_headerEvents se s c h
    · simp at h
  refine ⟨confirm_mem_handleSuggestion_false se w s, ⟨?_, ?_⟩, ?_, ?_, ?_⟩
  · rintro ⟨c, hc⟩
    cases hca : w.confirmAnswer
    · exact absurd hc (hdecl hca c)
    · rfl
  · intro hca
    rw [handleSuggestion_confirmed se w s hca]
    exact ⟨(resolveVariables w s.command).2,
      List.mem_append.mpr (Or.inr (spawn_mem_executeCommand w _))⟩
  · intro hca
    refine ⟨hdecl hca, ?_, ?_⟩
    · rw [handleSuggestion_declined se w s hca]; simp
    · rw [handleSuggestion_declined se w s hca]
  · exact not_confirm_mem_handleSuggestion_true se w s
  · exact spawn_mem_handleSuggestion_true se w s

/-- A concrete declining world used for the C1 witness. -/
def w0 : World := ⟨false, fun _ => [], fun _ => none⟩

/-- A concrete suggestion used by witnesses. -/
def s0 : CommandSuggestion := ⟨str "ls", str "lists files", none⟩

/-- Witness for C1 at a declining user. -/
theorem claim1_confirmation_gate_witness :
    Event.print (str "Command not executed.")
        ∈ ((Executor.mk false true).handleSuggestion w0 s0).1
    ∧ ((Executor.mk false true).handleSuggestion w0 s0).2 = Except.ok () := by
  have h := (claim1_confirmation_gate w0 s0 true).2.2.1 rfl
  exact ⟨h.2.1, h.2.2⟩

/-- C10: the executor skips the confirmation question exactly when the
`-y` flag or the `execution.auto_confirm` configuration field is set
(main.rs line 136); in particular a set configuration field cannot be
overridden by the flag being absent. -/
theorem claim10_auto_confirm_sources (yes cfg se : Bool) (w : World) (s : CommandSuggestion) :
    ((∀ p d, Event.confirmAsk p d
        ∉ ((Executor.mk (effectiveAutoConfirm yes cfg) se).handleSuggestion w s).1)
      ↔ (yes = true ∨ cfg = true))
    ∧ (cfg = true → ∀ p d, Event.confirmAsk p d
        ∉ ((Executor.mk (effectiveAutoConfirm yes cfg) se).handleSuggestion w s).1) := by
  have hmain : ∀ p1 : Bool, effectiveAutoConfirm yes cfg = p1 →
      ((∀ p d, Event.confirmAsk p d
          ∉ ((Executor.mk p1 se).handleSuggestion w s).1) ↔ p1 = true) := by
    intro p1 _
    cases p1
    · constructor
      · intro hno
        exact absurd (confirm_mem_handleSuggestion_false se w s)
          (hno (str "Run this command?") false)
      · intro h; exact absurd h (by simp)
    · constructor
      · intro _; rfl
      · intro _; exact not_confirm_mem_handleSuggestion_true se w s
  have heq : (effectiveAutoConfirm yes cfg = true) ↔ (yes = true ∨ cfg = true) := by
    cases yes <;> cases cfg <;> simp [effectiveAutoConfirm]
  constructor
  · rw [hmain (effectiveAutoConfirm yes cfg) rfl]
    exact heq
  · intro hcfg
    have hp : effectiveAutoConfirm yes cfg = true := by
      cases yes <;> simp [effectiveAutoConfirm, hcfg]
    rw [hp]
    exact not_confirm_mem_handleSuggestion_true se w s

/-- Witness for C10: configuration auto-confirm set, flag absent. -/
theorem claim10_auto_confirm_sources_witness :
    Event.confirmAsk (str "Run this command?") false
      ∉ ((Executor.mk (effectiveAutoConfirm false true) true).handleSuggestion w0 s0).1 :=
  (claim10_auto_confirm_sources false true true w0 s0).2 rfl (str "Run this command?") false

lemma execPhase_snd (w : World) (cmd : List Char) :
    (execPhase w cmd).2 = (executeCommand w (resolveVariables w cmd).2).2 := by
  simp only [execPhase]
  cases h : w.spawn (resolveVariables w cmd).2 <;> rfl

/-- C6: `execute_command` relays captured stdout and stderr, returns
success exactly on a successful exit status, and otherwise fails carrying
the process exit code (`-1` when no code is available); the executor and
`main` pass that single error through unchanged, so the process exits
non-zero with it. -/
theorem claim6_exit_code_passthrough (w : World) (cmd : List Char) :
    (∀ out : ProcOutput, w.spawn cmd = some out →
      ((out.stdout ≠ [] → Event.print out.stdout ∈ (executeCommand w cmd).1)
       ∧ (out.stderr ≠ [] → Event.eprint out.stderr ∈ (executeCommand w cmd).1)
       ∧ (out.exitCode ≠ some 0 →
            (executeCommand w cmd).2 = Except.error (str "Command failed with exit code: "
              ++ (toString (out.exitCode.getD (-1))).toList))
       ∧ (out.exitCode = some 0 → (executeCommand w cmd).2 = Except.ok ())))
    ∧ (∀ (ex : Executor) (s : CommandSuggestion), ex.auto_confirm = true →
        (ex.handleSuggestion w s).2 = (executeCommand w (resolveVariables w s.command).2).2)
    ∧ (∀ (R : RunEnv) (q : List Char) (ctx : SystemContext)
         (cs : List (Option Json)) (sugg : CommandSuggestion),
        SystemContext.gather R.shellOverride R.env = Except.ok ctx →
        R.httpOutcome = HttpOutcome.ok cs →
        parseChoices cs = Except.ok sugg →
        (effectiveAutoConfirm R.yesFlag R.cfgAutoConfirm = true ∨ R.world.confirmAnswer = true) →
        (mainSteps R q).2
          = (executeCommand R.world ((resolveVariables R.world sugg.command).2)).2) := by
  refine ⟨?_, ?_, ?_⟩
  · intro out hout
    refine ⟨?_, ?_, ?_, ?_⟩
    · intro h1
      by_cases h3 : out.exitCode = some 0 <;> simp [executeCommand, hout, h1, h3]
    · intro h2
      by_cases h3 : out.exitCode = some 0 <;> simp [executeCommand, hout, h2, h3]
    · intro h3
      simp [executeCommand, hout, h3]
    · intro h3
      simp [executeCommand, hout, h3]
  · intro ex s hauto
    obtain ⟨ac, se⟩ := ex
    simp only at hauto
    subst hauto
    simp [Executor.handleSuggestion]
  · intro R q ctx cs sugg h1 h2 h3 h4
    simp only [mainSteps, h1, generateCommand, h2, h3]
    by_cases ha : effectiveAutoConfirm R.yesFlag R.cfgAutoConfirm = true
    · rw [if_pos ha]
      exact execPhase_snd R.world sugg.command
    · rcases h4 with h4 | h4
      · exact absurd h4 ha
      · rw [if_neg ha, if_pos h4]
        exact execPhase_snd R.world sugg.command

/-- A concrete world whose subshell fails with exit code 3, for the C6
witness. -/
def wE : World := ⟨true, fun _ => [], fun _ => some ⟨str "out", str "err", some 3⟩⟩

/-- Witness for C6 at a failing subprocess. -/
theorem claim6_exit_code_passthrough_witness :
    Event.print (str "out") ∈ (executeCommand wE (str "ls")).1
    ∧ (executeCommand wE (str "ls")).2
        = Except.error (str "Command failed with exit code: 3") := by
  have h := (claim6_exit_code_passthrough wE (str "ls")).1 ⟨str "out", str "err", some 3⟩ rfl
  refine ⟨h.1 (by decide), ?_⟩
  rw [h.2.2.1 (by decide)]
  rfl

lemma splitSlash_ne_nil : ∀ s : List Char, splitSlash s ≠ [] := by
  intro s
  cases s with
  | nil => simp [splitSlash]
  | cons c cs =>
    simp only [splitSlash]
    by_cases h : c = '/'
    · simp [h]
    · rw [if_neg h]
      cases hs : splitSlash cs <;> simp

lemma getLastD_irrel : ∀ (l : List (List Char)) (d1 d2 : List Char), l ≠ [] →
    l.getLastD d1 = l.getLastD d2 := by
  intro l d1 d2 h
  cases l with
  | nil => exact absurd rfl h
  | cons a t => rw [List.getLastD_cons, List.getLastD_cons]

lemma splitSlash_noSlash : ∀ {s : List Char}, (∀ c ∈ s, c ≠ '/') → splitSlash s = [s] := by
  intro s
  induction s with
  | nil => intro _; rfl
  | cons c cs ih =>
    intro h
    have hc : c ≠ '/' := h c (by simp)
    have hcs := ih (fun x hx => h x (by simp [hx]))
    simp only [splitSlash]
    rw [if_neg hc, hcs]

lemma splitSlash_length_ge_two : ∀ (a b : List Char),
    2 ≤ (splitSlash (a ++ '/' :: b)).length := by
  intro a b
  induction a with
  | nil =>
    simp only [List.nil_append, splitSlash, if_pos rfl]
    have := List.length_pos.mpr (splitSlash_ne_nil b)
    simp
    omega
  | cons c a ih =>
    simp only [List.cons_append, splitSlash]
    by_cases hc : c = '/'
    · rw [if_pos hc]
      have := List.length_pos.mpr (splitSlash_ne_nil (a ++ '/' :: b))
      simp
      omega
    · rw [if_neg hc]
      cases hs : splitSlash (a ++ '/' :: b) with
      | nil => exact absurd hs (splitSlash_ne_nil _)
      | cons p ps =>
        rw [hs] at ih
        simp at ih ⊢
        omega

lemma splitSlash_getLastD_append : ∀ (a b d : List Char),
    (splitSlash (a ++ '/' :: b)).getLastD d = (splitSlash b).getLastD d := by
  intro a
  induction a with
  | nil =>
    intro b d
    have h2 : splitSlash ([] ++ '/' :: b) = [] :: splitSlash b := by
      simp [splitSlash]
    rw [h2, List.getLastD_cons]
    exact getLastD_irrel _ [] d (splitSlash_ne_nil b)
  | cons c a ih =>
    intro b d
    by_cases hc : c = '/'
    · have h2 : splitSlash ((c :: a) ++ '/' :: b) = [] :: splitSlash (a ++ '/' :: b) := by
        simp [splitSlash, hc]
      rw [h2, List.getLastD_cons, getLastD_irrel _ [] d (splitSlash_ne_nil _), ih b d]
    · cases hs : splitSlash (a ++ '/' :: b) with
      | nil => exact absurd hs (splitSlash_ne_nil _)
      | cons p ps =>
        have h2 : splitSlash ((c :: a) ++ '/' :: b) = (c :: p) :: ps := by
          simp only [List.cons_append, splitSlash, List.append_eq]
          rw [if_neg hc, hs]
        have hlen := splitSlash_length_ge_two a b
        rw [hs] at hlen
        have hps : ps ≠ [] := by
          cases ps with
          | nil => simp at hlen
          | cons q qs => simp
        have h3 : (splitSlash (a ++ '/' :: b)).getLastD d = ps.getLastD p := by
          rw [hs, List.getLastD_cons]
        rw [h2, List.getLastD_cons, getLastD_irrel ps (c :: p) p hps, ← h3, ih b d]

/-- C7: `SystemContext::gather` returns exactly the OS constant, the
shell (the configured override when present, otherwise the last path
component of `SHELL`, else the platform default), and the working
directory; it fails exactly when the working directory cannot be read. -/
theorem claim7_context_gather :
    (∀ (o : Option (List Char)) (env : Env) (d : List Char), env.currentDir = some d →
       SystemContext.gather o env = Except.ok ⟨env.osName, o.getD (detectShell env), d⟩)
    ∧ (∀ (o : Option (List Char)) (env : Env), env.currentDir = none →
       SystemContext.gather o env = Except.error (str "Failed to gather system context"))
    ∧ (∀ (env : Env) (s : List Char), env.shellVar = some s → (∀ c ∈ s, c ≠ '/') →
       detectShell env = s)
    ∧ (∀ (env : Env) (a b : List Char), env.shellVar = some (a ++ '/' :: b) →
       (∀ c ∈ b, c ≠ '/') → detectShell env = b)
    ∧ (∀ env : Env, env.shellVar = none →
       detectShell env
         = (if env.windows then (if env.psModulePath then str "powershell" else str "cmd")
            else str "bash")) := by
  refine ⟨?_, ?_, ?_, ?_, ?_⟩
  · intro o env d h
    simp [SystemContext.gather, h]
  · intro o env h
    simp [SystemContext.gather, h]
  · intro env s h hs
    simp only [detectShell, h]
    rw [splitSlash_noSlash hs]
    rfl
  · intro env a b h hb
    simp only [detectShell, h]
    rw [splitSlash_getLastD_append, splitSlash_noSlash hb]
    rfl
  · intro env h
    simp only [detectShell, h]

/-- A concrete environment for the C7 witness. -/
def env7 : Env := ⟨str "linux", some (str "/bin/zsh"), false, false, some (str "/w")⟩

/-- Witness for C7: a readable directory and a `SHELL` with slashes. -/
theorem claim7_context_gather_witness :
    detectShell env7 = str "zsh"
    ∧ SystemContext.gather none env7
        = Except.ok ⟨str "linux", detectShell env7, str "/w"⟩ := by
  constructor
  · exact claim7_context_gather.2.2.2.1 env7 (str "/bin") (str "zsh") (by decide) (by decide)
  · exact claim7_context_gather.1 none env7 (str "/w") rfl

/-- C5: the composed system prompt embeds the OS name, the shell name and
the current directory, and the request sent to the provider consists of
that system prompt and the raw user query. -/
theorem claim5_prompt_contains_context (ctx : SystemContext) (query : List Char) :
    Substr ctx.os (buildSystemPrompt ctx)
    ∧ Substr ctx.shell (buildSystemPrompt ctx)
    ∧ Substr ctx.current_dir (buildSystemPrompt ctx)
    ∧ (str "system", buildSystemPrompt ctx) ∈ buildRequest ctx query
    ∧ (str "user", query) ∈ buildRequest ctx query := by
  refine ⟨⟨promptSeg1, promptSeg2 ++ ctx.shell ++ promptSeg3 ++ ctx.current_dir
      ++ promptSeg4 ++ ctx.shell ++ promptSeg5 ++ ctx.os ++ promptSeg6, ?_⟩,
    ⟨promptSeg1 ++ ctx.os ++ promptSeg2, promptSeg3 ++ ctx.current_dir
      ++ promptSeg4 ++ ctx.shell ++ promptSeg5 ++ ctx.os ++ promptSeg6, ?_⟩,
    ⟨promptSeg1 ++ ctx.os ++ promptSeg2 ++ ctx.shell ++ promptSeg3,
      promptSeg4 ++ ctx.shell ++ promptSeg5 ++ ctx.os ++ promptSeg6, ?_⟩,
    by simp [buildRequest], by simp [buildRequest]⟩
  · simp [buildSystemPrompt, List.append_assoc]
  · simp [buildSystemPrompt, List.append_assoc]
  · simp [buildSystemPrompt, List.append_assoc]

lemma suggestionFromJson_ok_inv : ∀ {j : Json} {sug : CommandSuggestion},
    suggestionFromJson j = Except.ok sug →
    ∃ kvs, j = Json.obj kvs
      ∧ fieldVals kvs (str "command") = [Json.str sug.command]
      ∧ fieldVals kvs (str "explanation") = [Json.str sug.explanation]
      ∧ ((fieldVals kvs (str "warning") = [] ∧ sug.warning = none)
         ∨ (fieldVals kvs (str "warning") = [Json.null] ∧ sug.warning = none)
         ∨ (∃ wm, fieldVals kvs (str "warning") = [Json.str wm] ∧ sug.warning = some wm)) := by
  intro j sug h
  cases j with
  | null => simp [suggestionFromJson] at h
  | bool b => simp [suggestionFromJson] at h
  | num n => simp [suggestionFromJson] at h
  | str s2 => simp [suggestionFromJson] at h
  | arr l => simp [suggestionFromJson] at h
  | obj kvs =>
    refine ⟨kvs, rfl, ?_⟩
    simp only [suggestionFromJson] at h
    split at h
    · obtain ⟨rfl⟩ : (⟨_, _, none⟩ : CommandSuggestion) = sug := by simpa using h
      rename_i c e hc he hw
      exact ⟨hc, he, Or.inl ⟨hw, rfl⟩⟩
    · obtain ⟨rfl⟩ : (⟨_, _, none⟩ : CommandSuggestion) = sug := by simpa using h
      rename_i c e hc he hw
      exact ⟨hc, he, Or.inr (Or.inl ⟨hw, rfl⟩)⟩
    · obtain ⟨rfl⟩ : (⟨_, _, some _⟩ : CommandSuggestion) = sug := by simpa using h
      rename_i c e wm hc he hw
      exact ⟨hc, he, Or.inr (Or.inr ⟨wm, hw, rfl⟩)⟩
    · simp at h

/-- C4: `generate_command` parses the reply as the fixed suggestion
schema: an object with string fields `command` and `explanation` and an
optional `warning` that may be a string, `null`, or absent; it returns the
parsed suggestion exactly on conforming replies, and an error when there
is no choice or the reply does not conform. -/
theorem claim4_reply_schema (ctx : SystemContext) (q : List Char) :
    ((generateCommand ctx q (HttpOutcome.ok [])).2
        = Except.error (str "No response from AI"))
    ∧ (∀ (kvs : List (List Char × Json)) (c e : List Char) (rest : List (Option Json)),
        fieldVals kvs (str "command") = [Json.str c] →
        fieldVals kvs (str "explanation") = [Json.str e] →
        ((fieldVals kvs (str "warning") = [] →
            (generateCommand ctx q (HttpOutcome.ok (some (Json.obj kvs) :: rest))).2
              = Except.ok ⟨c, e, none⟩)
         ∧ (fieldVals kvs (str "warning") = [Json.null] →
            (generateCommand ctx q (HttpOutcome.ok (some (Json.obj kvs) :: rest))).2
              = Except.ok ⟨c, e, none⟩)
         ∧ (∀ wm, fieldVals kvs (str "warning") = [Json.str wm] →
            (generateCommand ctx q (HttpOutcome.ok (some (Json.obj kvs) :: rest))).2
              = Except.ok ⟨c, e, some wm⟩)))
    ∧ (∀ (content : Option Json) (rest : List (Option Json)) (sug : CommandSuggestion),
        (generateCommand ctx q (HttpOutcome.ok (content :: rest))).2 = Except.ok sug →
        ∃ kvs, content = some (Json.obj kvs)
          ∧ fieldVals kvs (str "command") = [Json.str sug.command]
          ∧ fieldVals kvs (str "explanation") = [Json.str sug.explanation]
          ∧ ((fieldVals kvs (str "warning") = [] ∧ sug.warning = none)
             ∨ (fieldVals kvs (str "warning") = [Json.null] ∧ sug.warning = none)
             ∨ (∃ wm, fieldVals kvs (str "warning") = [Json.str wm]
                  ∧ sug.warning = some wm))) := by
  refine ⟨rfl, ?_, ?_⟩
  · intro kvs c e rest hc he
    refine ⟨?_, ?_, ?_⟩
    · intro hw
      simp only [generateCommand, parseChoices, suggestionFromJson, hc, he, hw]
    · intro hw
      simp only [generateCommand, parseChoices, suggestionFromJson, hc, he, hw]
    · intro wm hw
      simp only [generateCommand, parseChoices, suggestionFromJson, hc, he, hw]
  · intro content rest sug h
    cases content with
    | none => simp [generateCommand, parseChoices] at h
    | some j =>
      have h2 : suggestionFromJson j = Except.ok sug := h
      obtain ⟨kvs, rfl, hrest⟩ := suggestionFromJson_ok_inv h2
      exact ⟨kvs, rfl, hrest⟩

/-- A concrete context for the C4/C5 witnesses. -/
def ctx4 : SystemContext := ⟨str "linux", str "bash", str "/h"⟩

/-- A concrete conforming reply object for the C4 witness. -/
def kvs4 : List (List Char × Json) :=
  [(str "command", Json.str (str "ls")), (str "explanation", Json.str (str "l")),
   (str "warning", Json.str (str "w"))]

/-- Witness for C4 at a conforming reply with a warning. -/
theorem claim4_reply_schema_witness :
    (generateCommand ctx4 (str "q") (HttpOutcome.ok [some (Json.obj kvs4)])).2
      = Except.ok ⟨str "ls", str "l", some (str "w")⟩ := by
  have h := (claim4_reply_schema ctx4 (str "q")).2.1 kvs4 (str "ls") (str "l") [] rfl rfl
  exact h.2.2 (str "w") rfl

/-- A conforming reply object used by the C3 run. -/
def sugJson3 : Json :=
  Json.obj [(str "command", Json.str (str "ls -la")),
            (str "explanation", Json.str (str "lists files")),
            (str "warning", Json.null)]

/-- Environment of the C3 runs. -/
def envC3 : Env := ⟨str "linux", none, false, false, some (str "/home/u")⟩

/-- World of the C3 runs: confirming user, successful subshell. -/
def worldC3 : World := ⟨true, fun _ => str "", fun _ => some ⟨str "out", [], some 0⟩⟩

/-- A run with the `-y` flag set and everything succeeding. -/
def runC3 : RunEnv :=
  ⟨envC3, some (str "zsh"), HttpOutcome.ok [some sugJson3], worldC3, true, false, true⟩

/-- The same run without the `-y` flag. -/
def runC3b : RunEnv :=
  ⟨envC3, some (str "zsh"), HttpOutcome.ok [some sugJson3], worldC3, false, false, true⟩

/-- Counterexample to C3 as stated: in a run with a nonempty query and
valid configuration but the `-y` flag set, the subshell execution step is
performed although the confirmation step never happens, so the pipeline
does not perform "prompt for confirmation" before execution in every
run. -/
theorem claim3_counterexample :
    Step.exec ∈ (mainSteps runC3 (str "list files")).1
    ∧ Step.confirm ∉ (mainSteps runC3 (str "list files")).1 := by decide

lemma execPhase_fst_none {w : World} {cmd : List Char}
    (h : w.spawn ((resolveVariables w cmd).2) = none) :
    (execPhase w cmd).1 = [Step.subst, Step.exec] := by
  simp only [execPhase, h]

lemma execPhase_fst_some {w : World} {cmd : List Char} {out : ProcOutput}
    (h : w.spawn ((resolveVariables w cmd).2) = some out) :
    (execPhase w cmd).1 = [Step.subst, Step.exec, Step.report] := by
  simp only [execPhase, h]

/-- C3 (amended): the steps a run performs are always, in this order and
each at most once, a prefix of gather, build prompt, call, parse,
confirm, substitute, execute, report — with the confirmation step skipped
exactly when auto-confirm (flag or configuration) is on — and a failing
step stops the run; a fully successful confirmed run without auto-confirm
performs all eight steps. -/
theorem claim3_pipeline_order (R : RunEnv) (q : List Char) :
    List.Sublist (mainSteps R q).1 stepOrder
    ∧ (effectiveAutoConfirm R.yesFlag R.cfgAutoConfirm = false →
        ∃ t, stepOrder = (mainSteps R q).1 ++ t)
    ∧ (effectiveAutoConfirm R.yesFlag R.cfgAutoConfirm = true →
        ∃ t, stepOrderAuto = (mainSteps R q).1 ++ t)
    ∧ (∀ (ctx : SystemContext) (cs : List (Option Json)) (sugg : CommandSuggestion)
         (out : ProcOutput),
        SystemContext.gather R.shellOverride R.env = Except.ok ctx →
        R.httpOutcome = HttpOutcome.ok cs →
        parseChoices cs = Except.ok sugg →
        effectiveAutoConfirm R.yesFlag R.cfgAutoConfirm = false →
        R.world.confirmAnswer = true →
        R.world.spawn ((resolveVariables R.world sugg.command).2) = some out →
        (mainSteps R q).1 = stepOrder) := by
  cases hg : SystemContext.gather R.shellOverride R.env with
  | error e =>
    have hsteps : (mainSteps R q).1 = [Step.gatherCtx] := by
      simp only [mainSteps, hg]
    rw [hsteps]
    refine ⟨by decide,
      fun _ => ⟨[Step.buildPrompt, Step.httpCall, Step.parseReply, Step.confirm,
        Step.subst, Step.exec, Step.report], rfl⟩,
      fun _ => ⟨[Step.buildPrompt, Step.httpCall, Step.parseReply,
        Step.subst, Step.exec, Step.report], rfl⟩, ?_⟩
    intro ctx cs sugg out h1
    exact Except.noConfusion h1
  | ok ctx =>
    cases ho : R.httpOutcome with
    | netFail =>
      have hsteps : (mainSteps R q).1 = [Step.gatherCtx, Step.buildPrompt, Step.httpCall] := by
        simp only [mainSteps, hg, generateCommand, ho]
      rw [hsteps]
      refine ⟨by decide,
        fun _ => ⟨[Step.parseReply, Step.confirm, Step.subst, Step.exec, Step.report], rfl⟩,
        fun _ => ⟨[Step.parseReply, Step.subst, Step.exec, Step.report], rfl⟩, ?_⟩
      intro ctx2 cs sugg out _ h2
      exact HttpOutcome.noConfusion h2
    | httpError code body =>
      have hsteps : (mainSteps R q).1 = [Step.gatherCtx, Step.buildPrompt, Step.httpCall] := by
        simp only [mainSteps, hg, generateCommand, ho]
      rw [hsteps]
      refine ⟨by decide,
        fun _ => ⟨[Step.parseReply, Step.confirm, Step.subst, Step.exec, Step.report], rfl⟩,
        fun _ => ⟨[Step.parseReply, Step.subst, Step.exec, Step.report], rfl⟩, ?_⟩
      intro ctx2 cs sugg out _ h2
      exact HttpOutcome.noConfusion h2
    | badBody =>
      have hsteps : (mainSteps R q).1
          = [Step.gatherCtx, Step.buildPrompt, Step.httpCall, Step.parseReply] := by
        simp only [mainSteps, hg, generateCommand, ho]
      rw [hsteps]
      refine ⟨by decide,
        fun _ => ⟨[Step.confirm, Step.subst, Step.exec, Step.report], rfl⟩,
        fun _ => ⟨[Step.subst, Step.exec, Step.report], rfl⟩, ?_⟩
      intro ctx2 cs sugg out _ h2
      exact HttpOutcome.noConfusion h2
    | ok cs =>
      cases hp : parseChoices cs with
      | error e =>
        have hsteps : (mainSteps R q).1
            = [Step.gatherCtx, Step.buildPrompt, Step.httpCall, Step.parseReply] := by
          simp only [mainSteps, hg, generateCommand, ho, hp]
        rw [hsteps]
        refine ⟨by decide,
          fun _ => ⟨[Step.confirm, Step.subst, Step.exec, Step.report], rfl⟩,
          fun _ => ⟨[Step.subst, Step.exec, Step.report], rfl⟩, ?_⟩
        intro ctx2 cs2 sugg out _ h2 h3
        cases h2
        rw [hp] at h3
        exact Except.noConfusion h3
      | ok sugg =>
        cases hauto : effectiveAutoConfirm R.yesFlag R.cfgAutoConfirm with
        | true =>
          cases hspawn : R.world.spawn ((resolveVariables R.world sugg.command).2) with
          | none =>
            have hsteps : (mainSteps R q).1
                = [Step.gatherCtx, Step.buildPrompt, Step.httpCall, Step.parseReply,
                   Step.subst, Step.exec] := by
              simp only [mainSteps, hg, generateCommand, ho, hp, hauto, if_true,
                execPhase_fst_none hspawn]
              rfl
            rw [hsteps]
            exact ⟨by decide,
              fun hf => Bool.noConfusion hf,
              fun _ => ⟨[Step.report], rfl⟩,
              fun ctx2 cs2 sugg2 out _ _ _ hf => Bool.noConfusion hf⟩
          | some out =>
            have hsteps : (mainSteps R q).1 = stepOrderAuto := by
              simp only [mainSteps, hg, generateCommand, ho, hp, hauto, if_true,
                execPhase_fst_some hspawn]
              rfl
            rw [hsteps]
            exact ⟨by decide,
              fun hf => Bool.noConfusion hf,
              fun _ => ⟨[], rfl⟩,
              fun ctx2 cs2 sugg2 out2 _ _ _ hf => Bool.noConfusion hf⟩
        | false =>
          cases hca : R.world.confirmAnswer with
          | false =>
            have hsteps : (mainSteps R q).1
                = [Step.gatherCtx, Step.buildPrompt, Step.httpCall, Step.parseReply,
                   Step.confirm] := by
              simp only [mainSteps, hg, generateCommand, ho, hp, hauto, hca]
              rfl
            rw [hsteps]
            refine ⟨by decide,
              fun _ => ⟨[Step.subst, Step.exec, Step.report], rfl⟩,
              fun hf => Bool.noConfusion hf, ?_⟩
            intro ctx2 cs2 sugg2 out _ _ _ _ h5
            exact Bool.noConfusion h5
          | true =>
            cases hspawn : R.world.spawn ((resolveVariables R.world sugg.command).2) with
            | none =>
              have hsteps : (mainSteps R q).1
                  = [Step.gatherCtx, Step.buildPrompt, Step.httpCall, Step.parseReply,
                     Step.confirm, Step.subst, Step.exec] := by
                simp only [mainSteps, hg, generateCommand, ho, hp, hauto, hca,
                  execPhase_fst_none hspawn]
                rfl
              rw [hsteps]
              refine ⟨by decide,
                fun _ => ⟨[Step.report], rfl⟩,
                fun hf => Bool.noConfusion hf, ?_⟩
              intro ctx2 cs2 sugg2 out _ h2 h3 _ _ h6
              cases h2
              rw [hp] at h3
              cases h3
              rw [h6] at hspawn
              exact Option.noConfusion hspawn
            | some out =>
              have hsteps : (mainSteps R q).1 = stepOrder := by
                simp only [mainSteps, hg, generateCommand, ho, hp, hauto, hca,
                  execPhase_fst_some hspawn]
                rfl
              rw [hsteps]
              exact ⟨List.Sublist.refl _,
                fun _ => ⟨[], rfl⟩,
                fun hf => Bool.noConfusion hf,
                fun ctx2 cs2 sugg2 out2 _ _ _ _ _ _ => rfl⟩

/-- Witness for the amended C3: a fully successful confirmed run without
auto-confirm performs all eight steps in order. -/
theorem claim3_pipeline_order_witness :
    (mainSteps runC3b (str "list files")).1 = stepOrder :=
  (claim3_pipeline_order runC3b (str "list files")).2.2.2
    ⟨str "linux", str "zsh", str "/home/u"⟩ [some sugJson3]
    ⟨str "ls -la", str "lists files", none⟩ ⟨str "out", [], some 0⟩
    rfl rfl rfl rfl rfl rfl

lemma isVarChar_ne_brace {c : Char} (h : isVarChar c = true) :
    c ≠ lbrace ∧ c ≠ rbrace := by
  constructor
  · intro hc; rw [hc] at h; exact absurd h (by decide)
  · intro hc; rw [hc] at h; exact absurd h (by decide)

lemma isPrefixOf_cons_cons (a b : Char) (l m : List Char) :
    (a :: l).isPrefixOf (b :: m) = (a == b && l.isPrefixOf m) := rfl

lemma isPrefixOf_self_append : ∀ (l t : List Char), l.isPrefixOf (l ++ t) = true := by
  intro l t
  induction l with
  | nil => cases t <;> rfl
  | cons a l ih => simp [isPrefixOf_cons_cons, ih]

lemma drop_length_append : ∀ (l t : List Char), (l ++ t).drop l.length = t := by
  intro l t
  induction l with
  | nil => rfl
  | cons a l ih => simp [ih]

lemma replaceAll_pos' {s pat : List Char} (repl : List Char)
    (h1 : pat ≠ []) (h2 : pat.isPrefixOf s = true) (h3 : s ≠ []) :
    replaceAll s pat repl = repl ++ replaceAll (s.drop pat.length) pat repl := by
  cases s with
  | nil => exact absurd rfl h3
  | cons c cs => exact replaceAll_pos repl h1 h2

lemma replaceAll_skip_head {c : Char} {cs pat : List Char} (repl : List Char)
    (h : pat.isPrefixOf (c :: cs) = false) :
    replaceAll (c :: cs) pat repl = c :: replaceAll cs pat repl := by
  apply replaceAll_neg
  intro hcon
  rw [h] at hcon
  exact Bool.noConfusion hcon.2

lemma placeholder_not_prefix_head {v : List Char} {c : Char} (cs : List Char)
    (hc : c ≠ lbrace) : (placeholder v).isPrefixOf (c :: cs) = false := by
  rw [placeholder, isPrefixOf_cons_cons]
  have : (lbrace == c) = false := by
    rw [beq_eq_false_iff_ne]
    exact fun h => hc h.symm
  rw [this, Bool.false_and]

lemma names_prefix_false : ∀ (v u rest : List Char),
    (∀ c ∈ v, isVarChar c = true) → (∀ c ∈ u, isVarChar c = true) → u ≠ v →
    (v ++ [rbrace, rbrace]).isPrefixOf (u ++ rbrace :: rbrace :: rest) = false := by
  intro v
  induction v with
  | nil =>
    intro u rest _ hu hne
    cases u with
    | nil => exact absurd rfl hne
    | cons b u2 =>
      have hb := (isVarChar_ne_brace (hu b (by simp))).2
      rw [List.nil_append, List.cons_append, isPrefixOf_cons_cons]
      have : (rbrace == b) = false := by
        rw [beq_eq_false_iff_ne]
        exact fun h => hb h.symm
      rw [this, Bool.false_and]
  | cons a v2 ih =>
    intro u rest hv hu hne
    cases u with
    | nil =>
      have ha := (isVarChar_ne_brace (hv a (by simp))).2
      rw [List.cons_append, List.nil_append, isPrefixOf_cons_cons]
      have : (a == rbrace) = false := by rw [beq_eq_false_iff_ne]; exact ha
      rw [this, Bool.false_and]
    | cons b u2 =>
      by_cases hab : a = b
      · rw [hab, List.cons_append, List.cons_append, isPrefixOf_cons_cons]
        have hne2 : u2 ≠ v2 := by
          intro hcon
          exact hne (by rw [hab, hcon])
        rw [ih u2 rest (fun c hc => hv c (by simp [hc])) (fun c hc => hu c (by simp [hc])) hne2]
        rw [Bool.and_false]
      · rw [List.cons_append, List.cons_append, isPrefixOf_cons_cons]
        have : (a == b) = false := by rw [beq_eq_false_iff_ne]; exact hab
        rw [this, Bool.false_and]

lemma replaceAll_skip_varrun {v : List Char} (repl : List Char) :
    ∀ (w1 rest : List Char), (∀ c ∈ w1, isVarChar c = true) →
    replaceAll (w1 ++ rbrace :: rbrace :: rest) (placeholder v) repl
      = w1 ++ rbrace :: rbrace :: replaceAll rest (placeholder v) repl := by
  intro w1
  induction w1 with
  | nil =>
    intro rest _
    rw [List.nil_append]
    rw [replaceAll_skip_head repl (placeholder_not_prefix_head _ (by decide))]
    rw [replaceAll_skip_head repl (placeholder_not_prefix_head _ (by decide))]
    rfl
  | cons c w1' ih =>
    intro rest hall
    have hc := (isVarChar_ne_brace (hall c (by simp))).1
    rw [List.cons_append]
    rw [replaceAll_skip_head repl (placeholder_not_prefix_head _ hc)]
    rw [ih rest (fun x hx => hall x (by simp [hx]))]
    rfl

lemma replaceAll_skip_placeholder {u v : List Char} (repl X : List Char)
    (hu : u ≠ [] ∧ ∀ c ∈ u, isVarChar c = true)
    (hv : v ≠ [] ∧ ∀ c ∈ v, isVarChar c = true)
    (hne : u ≠ v) :
    replaceAll (placeholder u ++ X) (placeholder v) repl
      = placeholder u ++ replaceAll X (placeholder v) repl := by
  have hshape : placeholder u ++ X
      = lbrace :: lbrace :: (u ++ rbrace :: rbrace :: X) := by
    simp [placeholder]
  have hpre1 : (placeholder v).isPrefixOf
      (lbrace :: lbrace :: (u ++ rbrace :: rbrace :: X)) = false := by
    rw [placeholder, isPrefixOf_cons_cons, isPrefixOf_cons_cons]
    rw [names_prefix_false v u X hv.2 hu.2 hne]
    simp
  have hpre2 : (placeholder v).isPrefixOf
      (lbrace :: (u ++ rbrace :: rbrace :: X)) = false := by
    cases hu0 : u with
    | nil => exact absurd hu0 hu.1
    | cons u0 u2 =>
      have h0 := (isVarChar_ne_brace (hu.2 u0 (by rw [hu0]; simp))).1
      rw [placeholder, isPrefixOf_cons_cons, List.cons_append, isPrefixOf_cons_cons]
      have : (lbrace == u0) = false := by
        rw [beq_eq_false_iff_ne]
        exact fun h => h0 h.symm
      rw [this, Bool.false_and, Bool.and_false]
  rw [hshape]
  rw [replaceAll_skip_head repl hpre1]
  rw [replaceAll_skip_head repl hpre2]
  rw [replaceAll_skip_varrun repl u X hu.2]
  simp [placeholder]

lemma replaceAll_at_placeholder (v rest repl : List Char) :
    replaceAll (placeholder v ++ rest) (placeholder v) repl
      = repl ++ replaceAll rest (placeholder v) repl := by
  rw [replaceAll_pos' repl (by simp [placeholder]) (isPrefixOf_self_append _ _)
    (by simp [placeholder])]
  rw [drop_length_append]

lemma flattenToks_append : ∀ (a b : List Tok),
    flattenToks (a ++ b) = flattenToks a ++ flattenToks b := by
  intro a b
  induction a with
  | nil => rfl
  | cons t a ih =>
    cases t with
    | lit c => simp [flattenToks, ih]
    | var v => simp [flattenToks, ih]

lemma flattenToks_map_lit : ∀ l : List Char, flattenToks (l.map Tok.lit) = l := by
  intro l
  induction l with
  | nil => rfl
  | cons c l ih => simp [flattenToks, ih]

lemma litOkTokB_lit {c : Char} (h : litOkTokB (Tok.lit c) = true) :
    c ≠ lbrace ∧ c ≠ rbrace := by
  simp [litOkTokB] at h
  exact h

lemma braceFreeB_mem {l : List Char} {c : Char} (h : braceFreeB l = true) (hc : c ∈ l) :
    c ≠ lbrace ∧ c ≠ rbrace := by
  rw [braceFreeB, List.all_eq_true] at h
  have := h c hc
  simp at this
  exact this

lemma substOne_flatten {v : List Char} (repl : List Char)
    (hv : v ≠ [] ∧ ∀ c ∈ v, isVarChar c = true) :
    ∀ ts : List Tok, (∀ t ∈ ts, litOkTokB t = true) → (∀ t ∈ ts, varOkTok t) →
    replaceAll (flattenToks ts) (placeholder v) repl = flattenToks (substOne v repl ts) := by
  intro ts
  induction ts with
  | nil => intro _ _; rfl
  | cons t ts ih =>
    intro hlit hvar
    have hlit2 : ∀ t2 ∈ ts, litOkTokB t2 = true := fun t2 h2 => hlit t2 (by simp [h2])
    have hvar2 : ∀ t2 ∈ ts, varOkTok t2 := fun t2 h2 => hvar t2 (by simp [h2])
    cases t with
    | lit c =>
      have hc := litOkTokB_lit (hlit (Tok.lit c) (List.mem_cons_self _ _))
      show replaceAll (c :: flattenToks ts) (placeholder v) repl
        = flattenToks (Tok.lit c :: substOne v repl ts)
      rw [replaceAll_skip_head repl (placeholder_not_prefix_head _ hc.1)]
      rw [ih hlit2 hvar2]
      rfl
    | var u =>
      have hu : u ≠ [] ∧ ∀ c ∈ u, isVarChar c = true := hvar (Tok.var u) (List.mem_cons_self _ _)
      by_cases huv : u = v
      · subst huv
        show replaceAll (placeholder u ++ flattenToks ts) (placeholder u) repl
          = flattenToks (substOne u repl (Tok.var u :: ts))
        rw [replaceAll_at_placeholder, ih hlit2 hvar2]
        have : substOne u repl (Tok.var u :: ts) = repl.map Tok.lit ++ substOne u repl ts := by
          simp [substOne]
        rw [this, flattenToks_append, flattenToks_map_lit]
      · show replaceAll (placeholder u ++ flattenToks ts) (placeholder v) repl
          = flattenToks (substOne v repl (Tok.var u :: ts))
        rw [replaceAll_skip_placeholder repl (flattenToks ts) hu hv huv]
        rw [ih hlit2 hvar2]
        have : substOne v repl (Tok.var u :: ts) = Tok.var u :: substOne v repl ts := by
          simp [substOne, huv]
        rw [this]
        rfl

lemma substOne_litOk {v repl : List Char} (hrepl : braceFreeB repl = true) :
    ∀ {ts : List Tok}, (∀ t ∈ ts, litOkTokB t = true) →
    ∀ t ∈ substOne v repl ts, litOkTokB t = true := by
  intro ts
  induction ts with
  | nil => intro _ t ht; exact absurd ht (List.not_mem_nil t)
  | cons t0 ts ih =>
    intro hlit t ht
    have hlit2 : ∀ t2 ∈ ts, litOkTokB t2 = true := fun t2 h2 => hlit t2 (by simp [h2])
    cases t0 with
    | lit c =>
      rcases List.mem_cons.mp ht with h1 | h1
      · rw [h1]; exact hlit _ (by simp)
      · exact ih hlit2 t h1
    | var u =>
      have hsp : substOne v repl (Tok.var u :: ts)
          = (if u = v then repl.map Tok.lit else [Tok.var u]) ++ substOne v repl ts := rfl
      rw [hsp] at ht
      rcases List.mem_append.mp ht with h1 | h1
      · by_cases huv : u = v
        · rw [if_pos huv] at h1
          obtain ⟨c, hc, hct⟩ := List.mem_map.mp h1
          rw [← hct]
          have := braceFreeB_mem hrepl hc
          simp [litOkTokB, this.1, this.2]
        · rw [if_neg huv] at h1
          simp at h1
          rw [h1]
          rfl
      · exact ih hlit2 t h1

lemma substOne_varOk {v repl : List Char} :
    ∀ {ts : List Tok}, (∀ t ∈ ts, varOkTok t) →
    ∀ t ∈ substOne v repl ts, varOkTok t := by
  intro ts
  induction ts with
  | nil => intro _ t ht; exact absurd ht (List.not_mem_nil t)
  | cons t0 ts ih =>
    intro hvar t ht
    have hvar2 : ∀ t2 ∈ ts, varOkTok t2 := fun t2 h2 => hvar t2 (by simp [h2])
    cases t0 with
    | lit c =>
      rcases List.mem_cons.mp ht with h1 | h1
      · rw [h1]; trivial
      · exact ih hvar2 t h1
    | var u =>
      have hsp : substOne v repl (Tok.var u :: ts)
          = (if u = v then repl.map Tok.lit else [Tok.var u]) ++ substOne v repl ts := rfl
      rw [hsp] at ht
      rcases List.mem_append.mp ht with h1 | h1
      · by_cases huv : u = v
        · rw [if_pos huv] at h1
          obtain ⟨c, -, hct⟩ := List.mem_map.mp h1
          rw [← hct]
          trivial
        · rw [if_neg huv] at h1
          simp at h1
          rw [h1]
          exact hvar _ (by simp)
      · exact ih hvar2 t h1

lemma substOne_var_mem {v repl u : List Char} :
    ∀ {ts : List Tok}, Tok.var u ∈ substOne v repl ts → u ≠ v ∧ Tok.var u ∈ ts := by
  intro ts
  induction ts with
  | nil => intro ht; exact absurd ht (List.not_mem_nil _)
  | cons t0 ts ih =>
    intro ht
    cases t0 with
    | lit c =>
      rcases List.mem_cons.mp ht with h1 | h1
      · exact absurd h1 (by simp)
      · obtain ⟨h2, h3⟩ := ih h1
        exact ⟨h2, by simp [h3]⟩
    | var u2 =>
      have hsp : substOne v repl (Tok.var u2 :: ts)
          = (if u2 = v then repl.map Tok.lit else [Tok.var u2]) ++ substOne v repl ts := rfl
      rw [hsp] at ht
      rcases List.mem_append.mp ht with h1 | h1
      · by_cases huv : u2 = v
        · rw [if_pos huv] at h1
          obtain ⟨c, -, hct⟩ := List.mem_map.mp h1
          exact absurd hct (by simp)
        · rw [if_neg huv] at h1
          simp at h1
          rw [h1]
          exact ⟨fun hc => huv (by rw [hc]), by simp⟩
      · obtain ⟨h2, h3⟩ := ih h1
        exact ⟨h2, by simp [h3]⟩

lemma substRounds_snd_render (w : World) :
    ∀ (vs : List (List Char)) (ts : List Tok),
    (∀ t ∈ ts, litOkTokB t = true) → (∀ t ∈ ts, varOkTok t) →
    (∀ x ∈ vs, braceFreeB (w.inputVal x) = true) →
    (∀ x ∈ vs, x ≠ [] ∧ ∀ c ∈ x, isVarChar c = true) →
    (substRounds w vs (flattenToks ts)).2
      = flattenToks (vs.foldl (fun acc x => substOne x (w.inputVal x) acc) ts) := by
  intro vs
  induction vs with
  | nil => intro ts _ _ _ _; rfl
  | cons v vs ih =>
    intro ts hlit hvar hbf hok
    have hv := hok v (List.mem_cons_self _ _)
    have hbv := hbf v (List.mem_cons_self _ _)
    have hstep : replaceAll (flattenToks ts) (placeholder v) (w.inputVal v)
        = flattenToks (substOne v (w.inputVal v) ts) :=
      substOne_flatten (w.inputVal v) hv ts hlit hvar
    show (substRounds w vs (replaceAll (flattenToks ts) (placeholder v) (w.inputVal v))).2
      = flattenToks ((v :: vs).foldl (fun acc x => substOne x (w.inputVal x) acc) ts)
    rw [hstep, List.foldl_cons]
    exact ih (substOne v (w.inputVal v) ts)
      (substOne_litOk hbv hlit) (substOne_varOk hvar)
      (fun x hx => hbf x (by simp [hx])) (fun x hx => hok x (by simp [hx]))

lemma renderToks_append (vals : List Char → List Char) :
    ∀ a b, renderToks vals (a ++ b) = renderToks vals a ++ renderToks vals b := by
  intro a b
  induction a with
  | nil => rfl
  | cons t a ih =>
    cases t with
    | lit c => simp [renderToks, ih]
    | var v => simp [renderToks, ih]

lemma renderToks_map_lit (vals : List Char → List Char) :
    ∀ l : List Char, renderToks vals (l.map Tok.lit) = l := by
  intro l
  induction l with
  | nil => rfl
  | cons c l ih => simp [renderToks, ih]

lemma renderToks_substOne (vals : List Char → List Char) (v : List Char) :
    ∀ ts : List Tok, renderToks vals (substOne v (vals v) ts) = renderToks vals ts := by
  intro ts
  induction ts with
  | nil => rfl
  | cons t ts ih =>
    cases t with
    | lit c =>
      show renderToks vals (Tok.lit c :: substOne v (vals v) ts)
        = renderToks vals (Tok.lit c :: ts)
      rw [renderToks, renderToks, ih]
    | var u =>
      by_cases huv : u = v
      · subst huv
        have hsp : substOne u (vals u) (Tok.var u :: ts)
            = (vals u).map Tok.lit ++ substOne u (vals u) ts := by simp [substOne]
        rw [hsp, renderToks_append, renderToks_map_lit, ih]
        rfl
      · have hsp : substOne v (vals v) (Tok.var u :: ts)
            = Tok.var u :: substOne v (vals v) ts := by simp [substOne, huv]
        rw [hsp, renderToks, renderToks, ih]

lemma flattenToks_eq_render_of_no_vars (vals : List Char → List Char) :
    ∀ ts : List Tok, (∀ u, Tok.var u ∉ ts) → flattenToks ts = renderToks vals ts := by
  intro ts
  induction ts with
  | nil => intro _; rfl
  | cons t ts ih =>
    intro h
    cases t with
    | lit c =>
      rw [flattenToks, renderToks, ih (fun u hu => h u (by simp [hu]))]
    | var u => exact absurd (List.mem_cons_self _ _) (h u)

lemma foldl_substOne_render (w : World) :
    ∀ (vs : List (List Char)) (ts : List Tok),
    (∀ u, Tok.var u ∈ ts → u ∈ vs) →
    flattenToks (vs.foldl (fun acc x => substOne x (w.inputVal x) acc) ts)
      = renderToks w.inputVal ts := by
  intro vs
  induction vs with
  | nil =>
    intro ts h
    exact flattenToks_eq_render_of_no_vars w.inputVal ts
      (fun u hu => absurd (h u hu) (List.not_mem_nil u))
  | cons v vs ih =>
    intro ts h
    rw [List.foldl_cons]
    rw [ih (substOne v (w.inputVal v) ts) ?hsub]
    · exact renderToks_substOne w.inputVal v ts
    case hsub =>
      intro u hu
      obtain ⟨hne, hmem⟩ := substOne_var_mem hu
      rcases List.mem_cons.mp (h u hmem) with h1 | h1
      · exact absurd h1 hne
      · exact h1

lemma collectVars_parseNames_ok (cmd : List Char) :
    ∀ x ∈ collectVars (parseNames cmd), x ≠ [] ∧ ∀ c ∈ x, isVarChar c = true := by
  intro x hx
  rw [collectVars_eq_keepFirst, keepFirst_mem] at hx
  have hvar := parseToks_varOk cmd (Tok.var x) (mem_parseNames.mp hx)
  exact hvar

/-- The sequential prompting loop renders the token decomposition when the
command has no braces outside placeholders and the entered values contain
no braces. -/
lemma resolveVariables_renders (w : World) (cmd : List Char)
    (H1 : ∀ t ∈ parseToks cmd, litOkTokB t = true)
    (H2 : ∀ x ∈ collectVars (parseNames cmd), braceFreeB (w.inputVal x) = true) :
    (resolveVariables w cmd).2 = renderToks w.inputVal (parseToks cmd) := by
  rw [resolveVariables_snd]
  have hts := flattenToks_parseToks cmd
  have hmain := substRounds_snd_render w (collectVars (parseNames cmd)) (parseToks cmd)
    H1 (parseToks_varOk cmd) H2 (collectVars_parseNames_ok cmd)
  rw [hts] at hmain
  rw [hmain]
  apply foldl_substOne_render
  intro u hu
  rw [collectVars_eq_keepFirst, keepFirst_mem]
  exact mem_parseNames.mpr hu

/-- World of the C2 counterexample: the value entered for `A` is `XY` and
the value for `BXY` is `v`. -/
def w2 : World :=
  ⟨true, fun v => if v = str "A" then str "XY"
    else if v = str "BXY" then str "v" else str "x",
   fun _ => none⟩

/-- Command of the C2 counterexample: literal text `\x7b\x7bB` and
`\x7d\x7d` around the placeholder of `A`, followed by the placeholder of
`BXY`. -/
def cmd2 : List Char := str "\x7b\x7bB\x7b\x7bA\x7d\x7d\x7d\x7dy\x7b\x7bBXY\x7d\x7d"

/-- Counterexample to C2 as stated: replacing `A` by `XY` creates a new
occurrence of the `BXY` placeholder out of adjacent literal text, and the
later `BXY` round replaces it too, so the executed string differs from
the command with every original placeholder occurrence replaced (the
code yields `vyv`, the claim demands `\x7b\x7bBXY\x7d\x7dyv`). -/
theorem claim2_counterexample :
    (resolveVariables w2 cmd2).2 ≠ substSpec w2.inputVal cmd2 := by decide

/-- C2 (amended): `resolve_variables` prompts once per distinct variable
in first-occurrence order and replaces sequentially, one variable at a
time over the whole string; whenever every brace of the command belongs
to a placeholder and no entered value contains a brace, the resulting
string is exactly the command with every occurrence of each placeholder
replaced by the value entered for its variable. -/
theorem claim2_variable_substitution (w : World) (cmd : List Char)
    (H1 : ∀ t ∈ parseToks cmd, litOkTokB t = true)
    (H2 : ∀ x ∈ collectVars (parseNames cmd), braceFreeB (w.inputVal x) = true) :
    (resolveVariables w cmd).2 = substSpec w.inputVal cmd :=
  resolveVariables_renders w cmd H1 H2

/-- World of the C2 witness. -/
def wW : World :=
  ⟨true, fun v => if v = str "SRC" then str "a.txt"
    else if v = str "DST" then str "b.txt" else str "x",
   fun _ => none⟩

/-- Command of the C2 witness. -/
def cmdW : List Char := str "cp \x7b\x7bSRC\x7d\x7d \x7b\x7bDST\x7d\x7d"

/-- Witness for the amended C2. -/
theorem claim2_variable_substitution_witness :
    (resolveVariables wW cmdW).2 = substSpec wW.inputVal cmdW :=
  claim2_variable_substitution wW cmdW (by decide) (by decide)

lemma existsPlaceholder_false_parseNames : ∀ {s : List Char},
    existsPlaceholder s = false → parseNames s = [] := by
  intro s
  induction s using parseToks_ind with
  | h0 => intro _; rfl
  | hvar s n r hm ih =>
    intro h
    cases s with
    | nil => exact absurd hm (by simp [matchPlaceholder])
    | cons c cs =>
      rw [existsPlaceholder, hm] at h
      simp at h
  | hlit c cs hm ih =>
    intro h
    rw [existsPlaceholder, hm] at h
    simp at h
    rw [parseNames, parseToks_eq_lit hm, List.filterMap_cons]
    exact ih h

lemma decomp_of_existsPlaceholder : ∀ {s : List Char}, existsPlaceholder s = true →
    ∃ l n r, n ≠ [] ∧ (∀ c ∈ n, isVarChar c = true) ∧ s = l ++ placeholder n ++ r := by
  intro s
  induction s with
  | nil => intro h; exact absurd h (by simp [existsPlaceholder])
  | cons c cs ih =>
    intro h
    rw [existsPlaceholder] at h
    cases hm : matchPlaceholder (c :: cs) with
    | some nr =>
      obtain ⟨n, r⟩ := nr
      obtain ⟨hs, hn, hv⟩ := matchPlaceholder_eq_some hm
      exact ⟨[], n, r, hn, hv, by rw [hs]; simp⟩
    | none =>
      rw [hm] at h
      simp at h
      obtain ⟨l, n, r, hn, hv, he⟩ := ih h
      exact ⟨c :: l, n, r, hn, hv, by rw [he]; simp⟩

lemma existsPlaceholder_of_decomp : ∀ (l : List Char) {n : List Char} (r : List Char),
    n ≠ [] → (∀ c ∈ n, isVarChar c = true) →
    existsPlaceholder (l ++ placeholder n ++ r) = true := by
  intro l
  induction l with
  | nil =>
    intro n r hn hv
    have hm := matchPlaceholder_placeholder r hn hv
    rw [List.nil_append]
    cases hq : placeholder n ++ r with
    | nil => exact absurd hq (by simp [placeholder])
    | cons c cs =>
      rw [hq] at hm
      rw [existsPlaceholder, hm]
      rfl
  | cons c l2 ih =>
    intro n r hn hv
    rw [List.cons_append, List.cons_append, existsPlaceholder]
    rw [ih r hn hv, Bool.or_true]

/-- C8: a command in which no substring has the form of a placeholder
(two left braces, a nonempty `[A-Z0-9_]+` name, two right braces) makes
`resolve_variables` prompt for nothing and return the command unchanged,
with no interaction at all. -/
theorem claim8_no_placeholder_no_prompt (w : World) (cmd : List Char)
    (h : ¬ ∃ l n r : List Char, n ≠ [] ∧ (∀ c ∈ n, isVarChar c = true)
        ∧ cmd = l ++ placeholder n ++ r) :
    resolveVariables w cmd = ([], cmd) := by
  have hex : existsPlaceholder cmd = false := by
    cases hexb : existsPlaceholder cmd with
    | false => rfl
    | true =>
      obtain ⟨l, n, r, hn, hv, he⟩ := decomp_of_existsPlaceholder hexb
      exact absurd ⟨l, n, r, hn, hv, he⟩ h
  have hn := existsPlaceholder_false_parseNames hex
  apply resolveVariables_empty
  rw [hn]
  rfl

/-- Command of the C8 witness: angle-bracket and lowercase pseudo
placeholders only. -/
def cmd8 : List Char := str "cat <path> \x7b\x7bfoo\x7d\x7d | wc -l"

/-- Witness for C8. -/
theorem claim8_no_placeholder_no_prompt_witness :
    resolveVariables w0 cmd8 = ([], cmd8) := by
  apply claim8_no_placeholder_no_prompt
  rintro ⟨l, n, r, hn, hv, he⟩
  have hx := existsPlaceholder_of_decomp l r hn hv
  rw [← he] at hx
  have hfalse : existsPlaceholder cmd8 = false := by decide
  rw [hfalse] at hx
  exact Bool.noConfusion hx

lemma filterMap_inputAsk (vars : List (List Char)) :
    (vars.map Event.inputAsk).filterMap
        (fun e => match e with | Event.inputAsk v => some v | _ => none)
      = vars := by
  induction vars with
  | nil => rfl
  | cons v vs ih => simp [ih]

lemma promptedVars_eq (w : World) (cmd : List Char) :
    promptedVars w cmd = collectVars (parseNames cmd) := by
  by_cases h : collectVars (parseNames cmd) = []
  · rw [promptedVars, resolveVariables_empty h, h]
    rfl
  · rw [promptedVars, resolveVariables_nonempty h]
    simp only [List.filterMap_append, filterMap_inputAsk]
    simp

/-- C9: `resolve_variables` prompts exactly once per distinct placeholder
name even when a name occurs several times, in order of first occurrence
(the prompted list is the first-occurrence deduplication of the scanned
names), and — when the command has no braces outside placeholders and
the entered values are brace-free — every occurrence of a placeholder is
replaced by the single value entered for its name. -/
theorem claim9_prompt_once_per_var (w : World) (cmd : List Char) :
    promptedVars w cmd = keepFirst (parseNames cmd)
    ∧ (promptedVars w cmd).Nodup
    ∧ (∀ v, v ∈ promptedVars w cmd ↔ v ∈ parseNames cmd)
    ∧ ((∀ t ∈ parseToks cmd, litOkTokB t = true) →
       (∀ x ∈ collectVars (parseNames cmd), braceFreeB (w.inputVal x) = true) →
       (resolveVariables w cmd).2 = renderToks w.inputVal (parseToks cmd)) := by
  refine ⟨?_, ?_, ?_, resolveVariables_renders w cmd⟩
  · rw [promptedVars_eq, collectVars_eq_keepFirst]
  · rw [promptedVars_eq, collectVars_eq_keepFirst]
    exact keepFirst_nodup _
  · intro v
    rw [promptedVars_eq, collectVars_eq_keepFirst, keepFirst_mem]

/-- World of the C9 witness. -/
def w9 : World :=
  ⟨true, fun v => if v = str "F" then str "a.txt"
    else if v = str "D" then str "dir" else str "x",
   fun _ => none⟩

/-- Command of the C9 witness: the variable `F` occurs twice. -/
def cmd9 : List Char := str "mv \x7b\x7bF\x7d\x7d \x7b\x7bF\x7d\x7d.bak \x7b\x7bD\x7d\x7d"

/-- Witness for C9. -/
theorem claim9_prompt_once_per_var_witness :
    (resolveVariables w9 cmd9).2 = renderToks w9.inputVal (parseToks cmd9) :=
  (claim9_prompt_once_per_var w9 cmd9).2.2.2 (by decide) (by decide)
